import Mathlib

/-!
Verification of the SAST engine (engine.py, data_access.py).

The definitions below are a shallow embedding of the Python source:
`PowerScanner` (AST visitor over a mini Python AST), `run_scanner`,
`has_cycle` (both the engine.py defaultdict variant and the
data_access.py plain-dict variant), and `scan_directory` including the
dependency audit.  Stateful visiting becomes explicit state passing; the
unguarded recursion of `get_all_aliases` becomes a fuel-indexed function
returning `none` when the fuel runs out (modelling non-termination);
printing an error message becomes an explicit error-entry list.
-/

namespace SAST

/-- Source position of an AST node: `lineno` and `col_offset`. -/
structure Pos where
  line : Nat
  col : Nat
deriving DecidableEq, Repr

/-- One reported issue, exactly the dictionary appended by
`PowerScanner.report` and by `scan_directory`. -/
structure Finding where
  file : String
  line : Nat
  col : Nat
  severity : String
  category : String
  message : String
deriving DecidableEq, Repr

/-- Boolean prefix test on character lists. -/
def isPrefixL : List Char → List Char → Bool
  | [], _ => true
  | _ :: _, [] => false
  | a :: as, b :: bs => a = b && isPrefixL as bs

/-- Boolean infix (substring) test on character lists; models Python's
`in` operator on strings. -/
def isInfixL (pat : List Char) : List Char → Bool
  | [] => isPrefixL pat []
  | c :: rest => isPrefixL pat (c :: rest) || isInfixL pat rest

/-- Python `pat in s` for strings. -/
def strIn (pat s : String) : Bool := isInfixL pat.toList s.toList

/-- Strict lexicographic comparison of character lists by code point;
models Python's `<` on strings. -/
def charListLt : List Char → List Char → Bool
  | [], [] => false
  | [], _ :: _ => true
  | _ :: _, [] => false
  | a :: as, b :: bs => a < b || (a = b && charListLt as bs)

/-- Python `s < t` on strings. -/
def strLtB (s t : String) : Bool := charListLt s.toList t.toList

/-- Python `s.lower()`. -/
def lowerStr (s : String) : String := String.mk (s.toList.map Char.toLower)

/-- Python `s.upper()`. -/
def upperStr (s : String) : String := String.mk (s.toList.map Char.toUpper)

/-- Prefix test on strings (Python `s.startswith(pat)`). -/
def strStarts (pat s : String) : Bool := isPrefixL pat.toList s.toList

/-- Python `s[1:]`. -/
def strTail (s : String) : String := String.mk (s.toList.drop 1)

/-- Python `s.strip()`: drop whitespace from both ends. -/
def trimStr (s : String) : String :=
  String.mk
    (((s.toList.dropWhile Char.isWhitespace).reverse.dropWhile
        Char.isWhitespace).reverse)

/-- The prefix of `l` before the first occurrence of `sep` (all of `l`
when `sep` does not occur): the head of a Python `split`. -/
def beforeFirst (sep : List Char) : List Char → List Char
  | [] => []
  | c :: rest =>
    if isPrefixL sep (c :: rest) then []
    else c :: beforeFirst sep rest

/-- The suffix of `l` after the first occurrence of `sep`; `none` when
`sep` does not occur. -/
def afterFirst (sep : List Char) : List Char → Option (List Char)
  | [] => if isPrefixL sep [] then some [] else none
  | c :: rest =>
    if isPrefixL sep (c :: rest) then some ((c :: rest).drop sep.length)
    else afterFirst sep rest

/-- Python `name.split('.')[0]`. -/
def baseName (nm : String) : String := String.mk (beforeFirst ['.'] nm.toList)

/-- The `self.severities` list of `PowerScanner`. -/
def severitiesList : List String := ["INFO", "LOW", "MEDIUM", "HIGH", "CRITICAL"]

/-- The `self.dangerous_sinks` set. -/
def dangerousSinks : List String :=
  ["eval", "exec", "compile", "input",
   "os.system", "os.popen", "os.execv", "os.execl", "os.spawnv",
   "subprocess.call", "subprocess.check_call", "subprocess.check_output",
   "subprocess.run"]

/-- The `self.sensitive_keywords` set. -/
def sensitiveKeywords : List String :=
  ["api_key", "password", "secret", "token", "credentials",
   "key", "pwd", "auth", "access_token", "session_id"]

/-- The `self.unsafe_modules` set. -/
def unsafeModules : List String :=
  ["pickle", "cPickle", "dill", "marshal", "shelve",
   "yaml", "xml.etree.ElementTree", "imp", "cgi", "ftplib", "telnetlib"]

/-- The `self.weak_hashes` set. -/
def weakHashes : List String := ["md5", "sha1"]

/-- Standardized reporting: `PowerScanner.report`.  An unrecognized
severity falls back to `"MEDIUM"` before the finding is stored. -/
def mkReport (filename : String) (pos : Pos) (severity category message : String) :
    Finding :=
  { file := filename
    line := pos.line
    col := pos.col
    severity := if severity ∈ severitiesList then severity else "MEDIUM"
    category := category
    message := message }

/-- Python constants as classified by `ast.Constant` (plus the legacy
`ast.Str`/`ast.Bytes`, which modern parsers also produce as constants). -/
inductive PyConst where
  | strC (s : String)
  | bytesC (s : String)
  | boolC (b : Bool)
  | intC (n : Int)
  | noneC
deriving DecidableEq, Repr

/-- Mini Python expression AST: the node kinds `PowerScanner` inspects.
`otherE` stands for any further childless node kind the scanner has no
handler for. -/
inductive PyExpr where
  | nameE (pos : Pos) (id : String)
  | constE (pos : Pos) (c : PyConst)
  | attrE (pos : Pos) (value : PyExpr) (attr : String)
  | callE (pos : Pos) (func : PyExpr) (args : List PyExpr)
      (kws : List (Option String × PyExpr))
  | binOpE (pos : Pos) (isAdd : Bool) (left right : PyExpr)
  | otherE (pos : Pos)

/-- Mini Python statement AST: the statement kinds the claims exercise.
`importS` carries the dotted names of an `import` statement; `importFromS`
the module and relative level of a `from ... import` statement. -/
inductive PyStmt where
  | assignS (pos : Pos) (targets : List PyExpr) (value : PyExpr)
  | exprS (e : PyExpr)
  | importS (pos : Pos) (names : List String)
  | importFromS (pos : Pos) (module : Option String) (level : Nat)
  | assertS (pos : Pos) (test : PyExpr)

/-- Mutable state of one `PowerScanner` instance. -/
structure ScanState where
  filename : String
  findings : List Finding
  importedModules : List String
  aliases : List (String × String)
  sensitiveVars : List String
deriving DecidableEq, Repr

/-- Fresh scanner state: `PowerScanner.__init__`. -/
def initState (filename : String) : ScanState :=
  { filename := filename, findings := [], importedModules := [],
    aliases := [], sensitiveVars := [] }

/-- Append one finding produced through `report`. -/
def addF (st : ScanState) (pos : Pos) (sev cat msg : String) : ScanState :=
  { st with findings := st.findings ++ [mkReport st.filename pos sev cat msg] }

/-- The set `self.aliases[var]` as a list (edge targets recorded for `var`). -/
def aliasesOf (al : List (String × String)) (var : String) : List String :=
  (al.filter (fun p => p.1 = var)).map (fun p => p.2)

/-- Add `self.aliases[target].add(source)` with set semantics. -/
def aliasAdd (al : List (String × String)) (target source : String) :
    List (String × String) :=
  if (target, source) ∈ al then al else al ++ [(target, source)]

/-- Union of two lists with set semantics (`all_aliases.update(...)`). -/
def unionL (xs ys : List String) : List String :=
  xs ++ ys.filter (fun y => y ∉ xs)

/-- The `for alias in self.aliases[var]` loop inside `get_all_aliases`,
accumulating `all_aliases`; `go` is the recursive call one level down. -/
def gaaList (go : String → Option (List String)) :
    List String → List String → Option (List String)
  | acc, [] => some acc
  | acc, a :: rest =>
    match go a with
    | none => none
    | some s => gaaList go (unionL acc s) rest

/-- Fuel-indexed embedding of `PowerScanner.get_all_aliases`.  The Python
routine recurses through `self.aliases` with no visited set; `none` models
the recursion exceeding the given depth (for a cyclic alias graph no fuel
suffices, i.e. the Python code does not terminate). -/
def getAllAliasesF (al : String → List String) : Nat → String → Option (List String)
  | 0, _ => none
  | fuel + 1, var => gaaList (getAllAliasesF al fuel) [var] (al var)

/-- Textual description of the call target used in the sensitive-data
message: `func_name or full_name`, which is Python `None` (printed as
`"None"`) when the callee is neither a plain name nor a
name-attribute. -/
def funcDescr : PyExpr → String
  | .nameE _ id => id
  | .attrE _ (.nameE _ v) a => v ++ "." ++ a
  | _ => "None"

/-- Test for a keyword argument literally `shell=True`. -/
def isShellTrueKw (kv : Option String × PyExpr) : Bool :=
  kv.1 = some "shell" &&
    match kv.2 with
    | .constE _ (.boolC true) => true
    | _ => false

/-- Test for a keyword argument `Loader=<attr>.SafeLoader`. -/
def isSafeLoaderKw (kv : Option String × PyExpr) : Bool :=
  kv.1 = some "Loader" &&
    match kv.2 with
    | .attrE _ _ a => a = "SafeLoader"
    | _ => false

/-- The reports `visit_Call` emits for the call node itself (everything
before the argument loop and `generic_visit`). -/
def callChecks (st : ScanState) (pos : Pos) (func : PyExpr)
    (kws : List (Option String × PyExpr)) : ScanState :=
  match func with
  | .nameE _ id =>
      if id ∈ dangerousSinks then
        addF st pos "HIGH" "Dangerous Sink"
          ("Execution of interpreted code via '" ++ id ++ "'.")
      else st
  | .attrE _ (.nameE _ v) a =>
      let full := v ++ "." ++ a
      let st :=
        if full ∈ dangerousSinks then
          addF st pos "HIGH" "Command Injection"
            ("Potential shell injection via '" ++ full ++ "'.")
        else st
      let st :=
        if v = "hashlib" ∧ a ∈ weakHashes then
          addF st pos "MEDIUM" "Weak Cryptography"
            ("Use of weak hash '" ++ a ++
              "' – consider stronger alternatives like sha256.")
        else st
      let st :=
        if v = "subprocess" ∧
            a ∈ ["Popen", "call", "check_call", "check_output", "run"] ∧
            kws.any isShellTrueKw then
          addF st pos "CRITICAL" "Command Injection"
            ("subprocess." ++ a ++ " with shell=True enables shell injection.")
        else st
      let st :=
        if v = "pickle" ∧ a ∈ ["load", "loads"] then
          addF st pos "HIGH" "Insecure Deserialization"
            ("'" ++ v ++ "." ++ a ++ "' can lead to RCE if data is untrusted.")
        else if v = "yaml" ∧ a = "load" ∧ ¬ kws.any isSafeLoaderKw then
          addF st pos "HIGH" "Insecure Deserialization"
            ("'" ++ v ++ "." ++ a ++ "' without SafeLoader can be unsafe.")
        else if v = "xml" ∧ a ∈ ["fromstring", "parse"] then
          addF st pos "MEDIUM" "XML Vulnerability"
            ("Potential XXE in '" ++ v ++ "." ++ a ++ "' – use defusedxml instead.")
        else st
      st
  | _ => st

/-- The `for arg in node.args` sensitive-data loop of `visit_Call`:
for every bare-name argument the full alias closure is computed (this is
where the unguarded recursion runs) and intersected with the sensitive
set. -/
def checkArgs (fuel : Nat) (pos : Pos) (descr : String) :
    ScanState → List PyExpr → Option ScanState
  | st, [] => some st
  | st, .nameE _ id :: rest =>
    match getAllAliasesF (aliasesOf st.aliases) fuel id with
    | none => none
    | some closure =>
      let st :=
        if st.sensitiveVars.any (fun v => v ∈ closure) then
          addF st pos "MEDIUM" "Sensitive Data Exposure"
            ("Sensitive variable '" ++ id ++ "' (or alias) used in call to " ++
              descr ++ ".")
        else st
      checkArgs fuel pos descr st rest
  | st, _ :: rest => checkArgs fuel pos descr st rest

/-- One pass of the `for target in node.targets` loop of `visit_Assign`:
returns the updated state and the `is_sensitive` flag. -/
def assignTargetStep (valueIsLiteral : Bool) (valueName : Option String)
    (pos : Pos) (acc : ScanState × Bool) (target : PyExpr) : ScanState × Bool :=
  match target with
  | .nameE _ id =>
      let varName := lowerStr id
      let hit := sensitiveKeywords.any (fun k => strIn k varName)
      let acc :=
        if hit ∧ valueIsLiteral then
          (addF acc.1 pos "HIGH" "Hardcoded Secret"
            ("Potential sensitive data in variable '" ++ id ++ "'."), true)
        else acc
      match valueName with
      | some src => ({ acc.1 with aliases := aliasAdd acc.1.aliases id src }, acc.2)
      | none => acc
  | _ => acc

/-- One step of the second loop of `visit_Assign`: a plain-name target
joins `self.sensitive_vars` (set semantics). -/
def markStep (s : ScanState) (t : PyExpr) : ScanState :=
  match t with
  | .nameE _ id =>
      if id ∈ s.sensitiveVars then s
      else { s with sensitiveVars := s.sensitiveVars ++ [id] }
  | _ => s

/-- The second loop of `visit_Assign`: when `is_sensitive` was set, every
plain-name target joins `self.sensitive_vars`. -/
def markSensitiveTargets (st : ScanState) (targets : List PyExpr) : ScanState :=
  targets.foldl markStep st

/-- Visit a list of child expressions in order; `visit` is the recursive
visitor one level down. -/
def visitList (visit : ScanState → PyExpr → Option ScanState) :
    ScanState → List PyExpr → Option ScanState
  | st, [] => some st
  | st, e :: rest =>
    match visit st e with
    | none => none
    | some st => visitList visit st rest

/-- Visit the value of each keyword argument in order. -/
def visitKws (visit : ScanState → PyExpr → Option ScanState) :
    ScanState → List (Option String × PyExpr) → Option ScanState
  | st, [] => some st
  | st, kv :: rest =>
    match visit st kv.2 with
    | none => none
    | some st => visitKws visit st rest

/-- Embedding of the `PowerScanner` dispatch on one expression node: the
handler for its kind followed by `generic_visit` into its children.  The
fuel bounds the recursion depth (of both the tree walk and the
alias-closure recursion); `none` means the bound was exceeded — the
Python walk always terminates on finite trees, so for every terminating
scan some fuel yields `some`, while an alias cycle yields `none` for
every fuel. -/
def visitExpr : Nat → ScanState → PyExpr → Option ScanState
  | 0, _, _ => none
  | fuel + 1, st, e =>
    match e with
    | .nameE _ _ => some st
    | .constE _ _ => some st
    | .otherE _ => some st
    | .attrE pos v a =>
        let st :=
          match v with
          | .nameE _ vid =>
              if vid = "os" ∧ a = "environ" then
                addF st pos "LOW" "Sensitive Access"
                  "Access to os.environ may expose sensitive environment variables."
              else st
          | _ => st
        visitExpr fuel st v
    | .callE pos func args kws =>
        let st := callChecks st pos func kws
        match checkArgs fuel pos (funcDescr func) st args with
        | none => none
        | some st =>
          match visitExpr fuel st func with
          | none => none
          | some st =>
            match visitList (visitExpr fuel) st args with
            | none => none
            | some st => visitKws (visitExpr fuel) st kws
    | .binOpE pos isAdd l r =>
        let st :=
          match isAdd, l with
          | true, .constE _ (.strC s) =>
              let rNotConst : Bool :=
                match r with | .constE _ _ => false | _ => true
              if (["SELECT", "INSERT", "UPDATE", "DELETE"].any
                    (fun kw => strIn kw (upperStr s))) && rNotConst then
                addF st pos "MEDIUM" "Potential SQL Injection"
                  "String concatenation in potential SQL query – use parameterized queries."
              else st
          | _, _ => st
        match visitExpr fuel st l with
        | none => none
        | some st => visitExpr fuel st r

/-- Embedding of the `PowerScanner` dispatch on one statement. -/
def visitStmt (fuel : Nat) (st : ScanState) : PyStmt → Option ScanState
  | .assignS pos targets value =>
      let valueIsLiteral := match value with | .constE _ _ => true | _ => false
      let valueName := match value with | .nameE _ id => some id | _ => none
      let (st, isSens) :=
        targets.foldl (assignTargetStep valueIsLiteral valueName pos) (st, false)
      let st := if isSens then markSensitiveTargets st targets else st
      match visitList (visitExpr fuel) st targets with
      | none => none
      | some st => visitExpr fuel st value
  | .exprS e => visitExpr fuel st e
  | .importS pos names =>
      some (names.foldl
        (fun s nm =>
          let base := baseName nm
          let s :=
            if base ∈ unsafeModules then
              addF s pos "MEDIUM" "Insecure Import"
                ("Unsafe module '" ++ nm ++
                  "' can lead to vulnerabilities like RCE or data exposure.")
            else s
          if ¬ strIn "." nm then
            { s with importedModules := s.importedModules ++ [nm] }
          else s)
        st)
  | .importFromS pos module level =>
      some (match module with
        | none => st
        | some m =>
            let base := baseName m
            let st :=
              if base ∈ unsafeModules then
                addF st pos "MEDIUM" "Insecure Import"
                  ("Unsafe module '" ++ m ++ "' imported.")
              else st
            if level = 0 then
              { st with importedModules := st.importedModules ++ [base] }
            else st)
  | .assertS pos test =>
      let st := addF st pos "LOW" "Debug Statement"
        "Assert statements are for debugging and disabled in production (-O flag)."
      visitExpr fuel st test

/-- Visit a module body (list of statements) in order. -/
def visitStmts (fuel : Nat) (st : ScanState) : List PyStmt → Option ScanState
  | [] => some st
  | s :: rest => do
      let st ← visitStmt fuel st s
      visitStmts fuel st rest

/-- One source file handed to the scanner: its path and the result of
`ast.parse` (either the module body or the `SyntaxError` message). -/
structure SrcFile where
  path : String
  parsed : Except String (List PyStmt)

/-- Result of `run_scanner` on one file: the findings, the collected
`imported_modules`, and the error entries printed on parse failure. -/
structure FileScan where
  path : String
  findings : List Finding
  imports : List String
  errors : List (String × String)
deriving DecidableEq, Repr

/-- Embedding of `run_scanner`: on a parse failure it emits one
file-scoped error entry (the `Failed to parse` message names the file and
the error) and returns no findings; otherwise it runs the visitor.
`none` models the visitor not terminating (alias-closure recursion). -/
def runScanner (fuel : Nat) (f : SrcFile) : Option FileScan :=
  match f.parsed with
  | .error e => some ⟨f.path, [], [], [(f.path, e)]⟩
  | .ok stmts =>
      (visitStmts fuel (initState f.path) stmts).map
        (fun st => ⟨f.path, st.findings, st.importedModules, []⟩)

/-- Scan every file of the walk in order (`run_scanner` per file). -/
def scanFiles (fuel : Nat) : List SrcFile → Option (List FileScan)
  | [] => some []
  | f :: rest =>
    match runScanner fuel f with
    | none => none
    | some r =>
      match scanFiles fuel rest with
      | none => none
      | some rs => some (r :: rs)

/-! ### The engine.py cycle detector

`has_cycle` receives a `defaultdict(list)`, so looking up an absent key
yields `[]`.  The recursive `dfs` is embedded with fuel; `none` (never
reached when the fuel is at least the number of nodes, as proved below)
models running out of fuel. -/

/-- Neighbor lookup in the import graph with `defaultdict(list)`
semantics: absent keys have no neighbors. -/
def nbrs (g : List (String × List String)) (k : String) : List String :=
  ((g.find? (fun p => p.1 == k)).map (fun p => p.2)).getD []

/-- Keys of the graph dictionary, in insertion order. -/
def keysOf (g : List (String × List String)) : List String :=
  g.map (fun p => p.1)

/-- Every node mentioned by the graph (keys and neighbors). -/
def allNodes (g : List (String × List String)) : List String :=
  g.map (fun p => p.1) ++ (g.map (fun p => p.2)).flatten

/-- The `for neighbor in graph[node]` loop of `dfs`: `visited` is
threaded (Python mutates it in place), `stack` is the recursion stack
including the current node (`rec_stack.remove` on exit is modelled by
each level keeping its own stack value), and `step` is the recursive
`dfs` call on an unvisited neighbor. -/
def dfsList (step : Finset String → String → Option (Bool × Finset String))
    (stack : Finset String) :
    Finset String → List String → Option (Bool × Finset String)
  | visited, [] => some (false, visited)
  | visited, m :: rest =>
    if m ∈ visited then
      if m ∈ stack then some (true, visited)
      else dfsList step stack visited rest
    else
      match step visited m with
      | none => none
      | some (true, v') => some (true, v')
      | some (false, v') => dfsList step stack v' rest

/-- The recursive `dfs(node)` of engine.py `has_cycle`: marks the node
visited and in the recursion stack, then walks its neighbor list.  The
fuel bounds the recursion depth; as proved below, the number of graph
nodes always suffices. -/
def dfsNode (g : List (String × List String)) :
    Nat → Finset String → Finset String → String → Option (Bool × Finset String)
  | 0, _, _, _ => none
  | fuel + 1, visited, stack, node =>
      dfsList (fun v m => dfsNode g fuel v (insert node stack) m)
        (insert node stack) (insert node visited) (nbrs g node)

/-- The outer `for node in list(graph.keys())` loop of `has_cycle`. -/
def hasCycleLoop (g : List (String × List String)) (fuel : Nat) :
    Finset String → List String → Option Bool
  | _, [] => some false
  | visited, k :: rest =>
    if k ∈ visited then hasCycleLoop g fuel visited rest
    else
      match dfsNode g fuel visited ∅ k with
      | none => none
      | some (true, _) => some true
      | some (false, v') => hasCycleLoop g fuel v' rest

/-- Embedding of engine.py `has_cycle` with a fuel bound that (as proved
below) always suffices. -/
def hasCycleO (g : List (String × List String)) : Option Bool :=
  hasCycleLoop g (allNodes g).length ∅ (keysOf g)

/-- Total version of `has_cycle`; faithful because `hasCycleO` never
returns `none`. -/
def hasCycleB (g : List (String × List String)) : Bool :=
  (hasCycleO g).getD false

/-! ### scan_directory -/

/-- Everything `scan_directory` reads from the outside world: the `.py`
files found by the walk (in walk order), the directory path, the
`requirements.txt` lines when that file exists, `importlib.util.find_spec`
(package to origin file), reading an origin file (which may fail), and the
sha256 hex digest. -/
structure ScanEnv where
  rootPath : String
  files : List SrcFile
  manifest : Option (List String)
  resolve : String → Option String
  readOrigin : String → Option String
  sha256hex : String → String

/-- Python `os.path.basename` followed by `[:-3]`: the module name of a
file path. -/
def moduleName (path : String) : String :=
  let base := (path.toList.reverse.takeWhile (fun c => c ≠ '/')).reverse
  String.mk (base.take (base.length - 3))

/-- The keys of `modules_to_files` (only membership is ever consulted). -/
def modulesToFiles (env : ScanEnv) : List String :=
  ((env.files.map (fun f => f.path)).map moduleName).filter
    (fun m => m ≠ "__init__")

/-- Append to a `defaultdict(list)` entry. -/
def addEdge (g : List (String × List String)) (k v : String) :
    List (String × List String) :=
  if g.any (fun p => p.1 = k) then
    g.map (fun p => if p.1 = k then (p.1, p.2 ++ [v]) else p)
  else g ++ [(k, [v])]

/-- Build the import graph from the per-file scans: an edge is recorded
only for imports that name a discovered local module. -/
def buildGraph (mods : List String) (scans : List FileScan) :
    List (String × List String) :=
  scans.foldl
    (fun g sc =>
      sc.imports.foldl
        (fun g imp =>
          if imp ∈ mods then addEdge g (moduleName sc.path) imp else g)
        g)
    []

/-- The directory-scoped Circular Import finding. -/
def circFinding (root : String) : Finding :=
  { file := root, line := 0, col := 0, severity := "MEDIUM",
    category := "Circular Import",
    message := "Cycle detected in import graph, which may cause runtime issues." }

/-- A known-vulnerable dependency rule. -/
structure VulnRule where
  vulnerableVersions : List String
  cve : String
  description : String
deriving DecidableEq, Repr

/-- The static `vulnerable_deps` table of `scan_directory`. -/
def vulnerableDeps : List (String × VulnRule) :=
  [("urllib3",
    ⟨["<2.6.0"], "CVE-2025-66418",
     "Unbounded decompression chain leading to high CPU and memory usage."⟩),
   ("python-json-logger",
    ⟨["3.2.0", "3.2.1"], "CVE-2025-27607", "RCE due to dependency hijacking."⟩),
   ("python-socketio",
    ⟨["<5.14.0"], "CVE-2025-61765", "RCE via pickle deserialization."⟩),
   ("aiohttp",
    ⟨["<3.13.3"], "CVE-2025-69224",
     "Request smuggling with non-ASCII characters."⟩)]

/-- Characters accepted by the manifest package-name pattern
`[a-zA-Z0-9_\-.]`. -/
def isPkgChar (c : Char) : Bool :=
  c.isAlpha || c.isDigit || c = '_' || c = '-' || c = '.'

/-- Leading package-name token of a manifest line (`re.match` of the
pattern above); `none` when the line starts with no such character. -/
def pkgNameOf (line : String) : Option String :=
  let tok := line.toList.takeWhile isPkgChar
  if tok = [] then none else some (String.mk tok)

/-- Version extraction (`line.split('==')[1].strip()`): the text between
the first `==` and the next `==` (or the end), stripped; absent when the
line has no `==`. -/
def verOf (line : String) : Option String :=
  match afterFirst ['=', '='] line.toList with
  | none => none
  | some suffix => some (trimStr (String.mk (beforeFirst ['=', '='] suffix)))

/-- Ordered-dict insertion for the `dependencies` dictionary. -/
def dictInsert (d : List (String × Option String)) (k : String)
    (v : Option String) : List (String × Option String) :=
  if d.any (fun p => p.1 = k) then
    d.map (fun p => if p.1 = k then (k, v) else p)
  else d ++ [(k, v)]

/-- Manifest parsing: strip lines, drop blanks and `#` comments, then
fill the `dependencies` dictionary in order. -/
def parseDeps (lines : List String) : List (String × Option String) :=
  let ls := (lines.map trimStr).filter
    (fun l => l ≠ "" ∧ ¬ strStarts "#" l)
  ls.foldl
    (fun d line =>
      match pkgNameOf line with
      | none => d
      | some pkg => dictInsert d pkg (verOf line))
    []

/-- The vulnerability loop of `scan_directory`: an absent version is
always vulnerable; otherwise each range specifier is compared with plain
string comparison. -/
def vulnMatches (ver : Option String) (ranges : List String) : Bool :=
  match ver with
  | none => true
  | some v =>
      ranges.any (fun r =>
        if strStarts "<" r then strLtB v (strTail r)
        else if strStarts ">" r then strLtB (strTail r) v
        else v = r)

/-- The HIGH Vulnerable Dependency finding for one matched entry. -/
def mkVulnFinding (reqPath pkg : String) (ver : Option String)
    (rule : VulnRule) : Finding :=
  { file := reqPath, line := 0, col := 0, severity := "HIGH",
    category := "Vulnerable Dependency",
    message := "Vulnerable dependency " ++ pkg ++ " " ++ ver.getD "unspecified"
      ++ ": " ++ rule.description ++ " (" ++ rule.cve ++ ")" }

/-- Vulnerability findings contributed by one dependency entry. -/
def vulnPart (table : List (String × VulnRule)) (reqPath : String)
    (p : String × Option String) : List Finding :=
  match table.find? (fun q => q.1 == p.1) with
  | none => []
  | some q =>
      if vulnMatches p.2 q.2.vulnerableVersions then
        [mkVulnFinding reqPath p.1 p.2 q.2]
      else []

/-- Hashing step for one dependency entry: resolve the package to an
installed origin file, read it, hash it; any failure skips silently. -/
def hashPart (env : ScanEnv) (reqPath pkg : String) : List Finding :=
  match env.resolve pkg with
  | none => []
  | some origin =>
      match env.readOrigin origin with
      | none => []
      | some content =>
          [{ file := reqPath, line := 0, col := 0, severity := "INFO",
             category := "Dependency Hash",
             message := "SHA256 hash for " ++ pkg ++ " (__file__): "
               ++ env.sha256hex content }]

/-- Path of the manifest: `os.path.join(directory_path, 'requirements.txt')`. -/
def reqPathOf (env : ScanEnv) : String := env.rootPath ++ "/requirements.txt"

/-- Findings of the dependency loop for one entry. -/
def depStep (env : ScanEnv) (p : String × Option String) : List Finding :=
  vulnPart vulnerableDeps (reqPathOf env) p ++ hashPart env (reqPathOf env) p.1

/-- All dependency findings (empty when no manifest exists). -/
def depsFindings (env : ScanEnv) : List Finding :=
  match env.manifest with
  | none => []
  | some lines => ((parseDeps lines).map (depStep env)).flatten

/-- Embedding of `scan_directory`: per-file scans, the circular-import
check, then the dependency audit.  The result pairs the finding list with
the printed parse-error entries; `none` models a scan that never
terminates (alias-closure recursion inside some file). -/
def scanDirectory (fuel : Nat) (env : ScanEnv) :
    Option (List Finding × List (String × String)) :=
  match scanFiles fuel env.files with
  | none => none
  | some scans =>
    let g := buildGraph (modulesToFiles env) scans
    let cyc := if hasCycleB g then [circFinding env.rootPath] else []
    some ((scans.map (fun s => s.findings)).flatten ++ cyc ++ depsFindings env,
      (scans.map (fun s => s.errors)).flatten)

/-! ### The data_access.py cycle detector

The same `has_cycle` source text, but `memory_space_data` passes it a
plain dict `{func: graph[func]}`, so `graph[neighbor]` raises `KeyError`
for any neighbor other than `func`. -/

/-- Result of the data_access `has_cycle` run: a boolean with the final
visited set, a `KeyError` naming the missing key, or fuel exhaustion
(proved unreachable for the single-entry graphs it is applied to). -/
inductive DARes where
  | okR (b : Bool) (visited : Finset String)
  | keyErr (k : String)
  | noFuel
deriving DecidableEq

/-- Plain-dict lookup `graph[k]`: `none` is a `KeyError`. -/
def lookupDA (g : List (String × List String)) (k : String) :
    Option (List String) :=
  (g.find? (fun p => p.1 == k)).map (fun p => p.2)

/-- The `dfs` neighbor loop of data_access `has_cycle` over a plain dict;
`step` is the recursive `dfs` call on an unvisited neighbor (which begins
with the failing `graph[neighbor]` lookup). -/
def dfsListDA (step : Finset String → String → DARes) (stack : Finset String) :
    Finset String → List String → DARes
  | visited, [] => .okR false visited
  | visited, m :: rest =>
    if m ∈ visited then
      if m ∈ stack then .okR true visited
      else dfsListDA step stack visited rest
    else
      match step visited m with
      | .okR true v' => .okR true v'
      | .okR false v' => dfsListDA step stack v' rest
      | e => e

/-- The recursive `dfs(node)` of data_access `has_cycle`: iterating
`graph[node]` over a plain dict raises `KeyError` when the node is not a
key. -/
def dfsNodeDA (g : List (String × List String)) :
    Nat → Finset String → Finset String → String → DARes
  | 0, _, _, _ => .noFuel
  | fuel + 1, visited, stack, node =>
      match lookupDA g node with
      | none => .keyErr node
      | some ns =>
          dfsListDA (fun v m => dfsNodeDA g fuel v (insert node stack) m)
            (insert node stack) (insert node visited) ns

/-- The outer loop of data_access `has_cycle`. -/
def hasCycleLoopDA (g : List (String × List String)) (fuel : Nat) :
    Finset String → List String → DARes
  | _, [] => .okR false ∅
  | visited, k :: rest =>
    if k ∈ visited then hasCycleLoopDA g fuel visited rest
    else
      match dfsNodeDA g fuel visited ∅ k with
      | .okR true v' => .okR true v'
      | .okR false v' => hasCycleLoopDA g fuel v' rest
      | e => e

/-- Embedding of data_access `has_cycle` on a plain dict. -/
def hasCycleDA (g : List (String × List String)) : DARes :=
  hasCycleLoopDA g (allNodes g).length ∅ (keysOf g)

/-- The per-function recursion loop of `memory_space_data`:
`has_cycle({func: graph[func]})` per function; a `KeyError` escapes the
loop (and is caught by the per-file handler, which replaces the whole
file's data with an error entry).  The fuel branch is unreachable. -/
def recursiveFuncsDA : List (String × List String) → List String →
    Except String (List String)
  | [], acc => .ok acc
  | (f, es) :: rest, acc =>
    match hasCycleDA [(f, es)] with
    | .okR true _ => recursiveFuncsDA rest (acc ++ [f])
    | .okR false _ => recursiveFuncsDA rest acc
    | .keyErr k => .error k
    | .noFuel => .error "unreachable"

/-! ### Notions used by the theorem statements -/

/-- The categories a per-file (`PowerScanner`) finding can carry. -/
def pfCategories : List String :=
  ["Dangerous Sink", "Command Injection", "Weak Cryptography",
   "Insecure Deserialization", "XML Vulnerability", "Sensitive Data Exposure",
   "Insecure Import", "Hardcoded Secret", "Poor Error Handling",
   "Debug Statement", "Potential SQL Injection", "Sensitive Access"]

/-- Well-formedness of one stored finding: a recognized severity and a
per-file category. -/
def findingOK (fd : Finding) : Prop :=
  fd.severity ∈ severitiesList ∧ fd.category ∈ pfCategories

/-- Scanner-state invariant: every stored finding is well-formed. -/
def stInv (st : ScanState) : Prop := ∀ fd ∈ st.findings, findingOK fd

/-- Two scanner states that agree on everything except the findings list:
visiting an expression only ever appends findings. -/
def sameCore (st st' : ScanState) : Prop :=
  st'.filename = st.filename ∧ st'.importedModules = st.importedModules ∧
  st'.aliases = st.aliases ∧ st'.sensitiveVars = st.sensitiveVars

/-- Number of CRITICAL findings in a list. -/
def critCount (l : List Finding) : Nat :=
  (l.filter (fun fd => fd.severity = "CRITICAL")).length

/-- Number of Circular Import findings in a list. -/
def circCount (l : List Finding) : Nat :=
  (l.filter (fun fd => fd.category = "Circular Import")).length

/-- Leaf expressions (names, constants, unhandled leaves): visiting them
emits nothing and changes no state. -/
def simpleExpr : PyExpr → Bool
  | .nameE _ _ => true
  | .constE _ _ => true
  | .otherE _ => true
  | _ => false

/-- Edge relation of an import graph as stored by `scan_directory`. -/
def gEdge (g : List (String × List String)) (a b : String) : Prop :=
  b ∈ nbrs g a

/-- A directed cycle exists in the graph. -/
def hasDirectedCycle (g : List (String × List String)) : Prop :=
  ∃ n, Relation.TransGen (gEdge g) n n

/-- All nodes of a graph as a finite set. -/
def univFS (g : List (String × List String)) : Finset String :=
  (allNodes g).toFinset

/-- Invariant of the engine `dfs`: the finished (black) nodes
`V \ S` are closed under edges and lie on no cycle. -/
def dfsInv (g : List (String × List String)) (V S : Finset String) : Prop :=
  (∀ u ∈ V \ S, ∀ m, gEdge g u m → m ∈ V \ S) ∧
  (∀ u ∈ V \ S, ¬ Relation.TransGen (gEdge g) u u)

/-- The range-specifier semantics as the specification words them: a
`<`-prefixed specifier matches a version lexicographically below the
bound, a `>`-prefixed one a version lexicographically above it, an
unprefixed one an exactly equal version. -/
def specRangeMatches (r : String) (v : String) : Prop :=
  (strStarts "<" r = true ∧ strLtB v (strTail r) = true) ∨
  (strStarts ">" r = true ∧ strLtB (strTail r) v = true) ∨
  (strStarts "<" r = false ∧ strStarts ">" r = false ∧ v = r)

instance (r v : String) : Decidable (specRangeMatches r v) := by
  unfold specRangeMatches
  infer_instance

/-! ### Concrete inputs used by the witnesses -/

/-- Shorthand position. -/
def wPos : Pos := ⟨1, 0⟩

/-- The cyclic alias program `a = b; b = a` followed by `send(a)`. -/
def cycAliasProg : List PyStmt :=
  [.assignS wPos [.nameE wPos "a"] (.nameE wPos "b"),
   .assignS ⟨2, 0⟩ [.nameE ⟨2, 0⟩ "b"] (.nameE ⟨2, 4⟩ "a"),
   .exprS (.callE ⟨3, 0⟩ (.nameE ⟨3, 0⟩ "send") [.nameE ⟨3, 5⟩ "a"] [])]

/-- The cyclic alias map produced by `a = b; b = a`. -/
def cycAliases : String → List String :=
  aliasesOf [("a", "b"), ("b", "a")]

/-- Witness file `a.py` importing local module `b`. -/
def fileA : SrcFile := ⟨"root/a.py", .ok [.importS wPos ["b"]]⟩

/-- Witness file `b.py` importing local module `a`. -/
def fileB : SrcFile := ⟨"root/b.py", .ok [.importS wPos ["a"]]⟩

/-- Witness file `c.py`, acyclic. -/
def fileC : SrcFile := ⟨"root/c.py", .ok [.importS wPos ["a"]]⟩

/-- Witness file with a syntax error. -/
def fileBad : SrcFile := ⟨"root/bad.py", .error "invalid syntax (line 3)"⟩

/-- Witness file with a hardcoded secret and a sensitive call. -/
def fileSec : SrcFile :=
  ⟨"root/sec.py",
   .ok [.assignS wPos [.nameE wPos "password"] (.constE wPos (.strC "abc123")),
        .exprS (.callE ⟨2, 0⟩ (.nameE ⟨2, 0⟩ "send")
          [.nameE ⟨2, 5⟩ "password"] [])]⟩

/-- Witness environment: a cyclic two-module project plus an acyclic
module, a broken file, and a manifest with one vulnerable dependency. -/
def envW : ScanEnv :=
  ⟨"root", [fileA, fileBad, fileB, fileC], some ["urllib3==2.5.0"],
   fun _ => none, fun _ => none, fun _ => "deadbeef"⟩

/-- Witness environment with no manifest and only the secret file. -/
def envSec : ScanEnv :=
  ⟨"root", [fileSec], none, fun _ => none, fun _ => none, fun _ => "deadbeef"⟩

/-- A hypothetical one-rule vulnerability table used to isolate the
range-matching semantics (`pkg` with range `<2.0.0`). -/
def pkgTable : List (String × VulnRule) :=
  [("pkg", ⟨["<2.0.0"], "CVE-TEST-1", "test rule"⟩)]

/-- The per-file scans `scan_files` produces on `envW` (concrete value,
used by the circular-import witness). -/
def wScans5 : List FileScan :=
  [⟨"root/a.py", [], ["b"], []⟩,
   ⟨"root/bad.py", [], [], [("root/bad.py", "invalid syntax (line 3)")]⟩,
   ⟨"root/b.py", [], ["a"], []⟩,
   ⟨"root/c.py", [], ["a"], []⟩]

/-- The full `scan_directory` output on `envW` (concrete value, used by
the circular-import witness). -/
def wOut5 : List Finding × List (String × String) :=
  ([circFinding "root",
    ⟨"root/requirements.txt", 0, 0, "HIGH", "Vulnerable Dependency",
     "Vulnerable dependency urllib3 2.5.0: Unbounded decompression chain leading to high CPU and memory usage. (CVE-2025-66418)"⟩],
   [("root/bad.py", "invalid syntax (line 3)")])

/-! ## Basic lemmas -/

lemma isPrefixL_iff : ∀ p l : List Char, isPrefixL p l = true ↔ p <+: l := by
  intro p
  induction p with
  | nil => intro l; simp [isPrefixL]
  | cons a as ih =>
    intro l
    cases l with
    | nil => simp [isPrefixL]
    | cons b bs =>
      simp [isPrefixL, List.cons_prefix_cons, ih bs, and_comm]

lemma isInfixL_iff : ∀ (p l : List Char), isInfixL p l = true ↔ p <:+: l := by
  intro p l
  induction l with
  | nil =>
    simp [isInfixL, isPrefixL_iff, List.prefix_nil, List.infix_nil]
  | cons c cs ih =>
    simp only [isInfixL, Bool.or_eq_true, isPrefixL_iff, ih]
    exact ((List.infix_cons_iff : p <:+: c :: cs ↔ _)).symm

lemma strIn_iff (pat s : String) : strIn pat s = true ↔ pat.toList <:+: s.toList := by
  simp [strIn, isInfixL_iff]

lemma strIn_of_append (pat pre post : String) :
    strIn pat (pre ++ pat ++ post) = true := by
  rw [strIn_iff]
  refine ⟨pre.toList, post.toList, ?_⟩
  have h1 : (pre ++ pat ++ post).toList = pre.toList ++ pat.toList ++ post.toList := by
    simp [String.toList, String.data_append]
  simp [h1]

/-! ## The alias closure has no visited set (claim C2) -/

lemma cyc_gaa (fuel : Nat) :
    getAllAliasesF cycAliases fuel "a" = none ∧
    getAllAliasesF cycAliases fuel "b" = none := by
  induction fuel with
  | zero => exact ⟨rfl, rfl⟩
  | succ n ih =>
    constructor
    · show gaaList (getAllAliasesF cycAliases n) ["a"] (cycAliases "a") = none
      have ha : cycAliases "a" = ["b"] := by decide
      rw [ha]
      simp [gaaList, ih.2]
    · show gaaList (getAllAliasesF cycAliases n) ["b"] (cycAliases "b") = none
      have hb : cycAliases "b" = ["a"] := by decide
      rw [hb]
      simp [gaaList, ih.1]

lemma callChecks_aliases (st : ScanState) (pos : Pos) (f : PyExpr)
    (kws : List (Option String × PyExpr)) :
    (callChecks st pos f kws).aliases = st.aliases := by
  unfold callChecks
  cases f with
  | attrE p v a =>
      cases v <;> try rfl
      dsimp only
      split_ifs <;> rfl
  | nameE p id =>
      dsimp only
      split_ifs <;> rfl
  | _ => rfl

lemma visitStmts_call_diverges (fuel : Nat) (st : ScanState)
    (pos fpos apos : Pos) (fid aid : String)
    (h : getAllAliasesF (aliasesOf st.aliases) fuel aid = none) :
    visitStmts (fuel + 1) st
      [.exprS (.callE pos (.nameE fpos fid) [.nameE apos aid] [])] = none := by
  have hc : getAllAliasesF
      (aliasesOf (callChecks st pos (.nameE fpos fid) []).aliases) fuel aid = none := by
    rw [callChecks_aliases]; exact h
  simp [visitStmts, visitStmt, visitExpr, checkArgs, hc]

/-- The Python `get_all_aliases` keeps no visited set, so on the cyclic
alias relation produced by `a = b; b = a` it recurses forever: for every
depth bound the bounded unfolding is exhausted, both for the raw closure
lookup and for the whole scan of `a = b; b = a; send(a)`. -/
theorem get_all_aliases_cycle_diverges :
    (∀ fuel, getAllAliasesF cycAliases fuel "a" = none) ∧
    (∀ fuel, visitStmts fuel (initState "cyc.py") cycAliasProg = none) := by
  refine ⟨fun fuel => (cyc_gaa fuel).1, fun fuel => ?_⟩
  match fuel with
  | 0 => rfl
  | n + 1 =>
    have h2 : visitStmts (n + 1) (initState "cyc.py") cycAliasProg =
        visitStmts (n + 1)
          { filename := "cyc.py", findings := [], importedModules := [],
            aliases := [("a", "b"), ("b", "a")], sensitiveVars := [] }
          [.exprS (.callE ⟨3, 0⟩ (.nameE ⟨3, 0⟩ "send") [.nameE ⟨3, 5⟩ "a"] [])] := rfl
    rw [h2]
    exact visitStmts_call_diverges n _ ⟨3, 0⟩ ⟨3, 0⟩ ⟨3, 5⟩ "send" "a" ((cyc_gaa n).1)

/-! ## The per-function recursion check on a plain dict (claim C3) -/

/-- Evaluation of the data_access recursion check at the failing input:
the function `f` has the call list `[g, f]` (so it does contain a direct
call to itself), yet `has_cycle({f: [g, f]})` raises `KeyError('g')`
because the single-entry dict has no key `g`, and the per-function loop
of `memory_space_data` propagates that error (the per-file handler then
stores an error entry) instead of reporting `f` as recursive.  With the
self-call first, the check does answer `True`. -/
theorem recursion_check_raises_keyerror :
    hasCycleDA [("f", ["g", "f"])] = DARes.keyErr "g" ∧
    recursiveFuncsDA [("f", ["g", "f"])] [] = Except.error "g" ∧
    hasCycleDA [("f", ["f", "g"])] = DARes.okR true {"f"} ∧
    recursiveFuncsDA [("f", ["f", "g"])] [] = Except.ok ["f"] := by
  exact ⟨by decide, rfl, by decide, rfl⟩

/-! ## Version-range matching of the dependency audit (claim C4) -/

lemma strStarts_lt_gt (r : String) :
    strStarts "<" r = true → strStarts ">" r = false := by
  unfold strStarts
  cases h : r.toList with
  | nil => simp [isPrefixL]
  | cons c cs =>
    simp only [isPrefixL, Bool.and_eq_true, decide_eq_true_eq]
    rintro ⟨rfl, -⟩
    simp

lemma range_if_iff (r v : String) :
    ((if strStarts "<" r then strLtB v (strTail r)
      else if strStarts ">" r then strLtB (strTail r) v
      else decide (v = r)) = true) ↔ specRangeMatches r v := by
  by_cases h1 : strStarts "<" r = true
  · have h2 := strStarts_lt_gt r h1
    simp [h1, h2, specRangeMatches]
  · have h1' : strStarts "<" r = false := by simpa using h1
    by_cases h2 : strStarts ">" r = true
    · simp [h1', h2, specRangeMatches]
    · have h2' : strStarts ">" r = false := by simpa using h2
      simp [h1', h2', specRangeMatches]

lemma vulnMatches_iff (ver : Option String) (ranges : List String) :
    vulnMatches ver ranges = true ↔
      (ver = none ∨ ∃ v, ver = some v ∧ ∃ r ∈ ranges, specRangeMatches r v) := by
  cases ver with
  | none => simp [vulnMatches]
  | some v =>
    simp only [vulnMatches, List.any_eq_true]
    constructor
    · rintro ⟨r, hr, hm⟩
      exact Or.inr ⟨v, rfl, r, hr, (range_if_iff r v).mp hm⟩
    · rintro (h | ⟨v', hv', r, hr, hm⟩)
      · exact absurd h (by simp)
      · simp only [Option.some.injEq] at hv'
        subst hv'
        exact ⟨r, hr, (range_if_iff r _).mpr hm⟩

lemma vulnMatches_false (ver : Option String) (ranges : List String)
    (h : ¬ (ver = none ∨ ∃ v, ver = some v ∧ ∃ r ∈ ranges, specRangeMatches r v)) :
    vulnMatches ver ranges = false := by
  cases hb : vulnMatches ver ranges with
  | false => rfl
  | true => exact absurd ((vulnMatches_iff ver ranges).mp hb) h

/-- The dependency audit emits exactly one HIGH Vulnerable Dependency
finding (whose message quotes the rule's CVE id) for a manifest entry
present in the vulnerability table precisely when the specification's
range semantics match: an absent version always matches, a `<`-prefixed
specifier matches a lexicographically smaller version string, a
`>`-prefixed one a lexicographically greater version string, and an
unprefixed specifier an exactly equal version. -/
theorem vulnerable_dependency_range_semantics
    (table : List (String × VulnRule)) (reqP pkg : String)
    (ver : Option String) (rule : VulnRule)
    (hfind : table.find? (fun q => q.1 == pkg) = some (pkg, rule)) :
    ((∃ fd, vulnPart table reqP (pkg, ver) = [fd] ∧ fd.severity = "HIGH" ∧
        fd.category = "Vulnerable Dependency" ∧ strIn rule.cve fd.message = true) ↔
      (ver = none ∨ ∃ v, ver = some v ∧
        ∃ r ∈ rule.vulnerableVersions, specRangeMatches r v)) ∧
    (vulnPart table reqP (pkg, ver) = [] ↔
      ¬ (ver = none ∨ ∃ v, ver = some v ∧
        ∃ r ∈ rule.vulnerableVersions, specRangeMatches r v)) := by
  have hmsg : strIn rule.cve (mkVulnFinding reqP pkg ver rule).message = true := by
    have h := strIn_of_append rule.cve
      ("Vulnerable dependency " ++ pkg ++ " " ++ ver.getD "unspecified" ++ ": "
        ++ rule.description ++ " (") ")"
    have he : ("Vulnerable dependency " ++ pkg ++ " " ++ ver.getD "unspecified"
        ++ ": " ++ rule.description ++ " (") ++ rule.cve ++ ")" =
        (mkVulnFinding reqP pkg ver rule).message := by
      simp [mkVulnFinding, String.append_assoc]
    rwa [he] at h
  unfold vulnPart
  rw [hfind]
  by_cases hm : vulnMatches ver rule.vulnerableVersions = true
  · have hiff := (vulnMatches_iff ver rule.vulnerableVersions).mp hm
    refine ⟨iff_of_true ⟨mkVulnFinding reqP pkg ver rule, by simp [hm], rfl, rfl,
      hmsg⟩ hiff, iff_of_false (by simp [hm]) (not_not_intro hiff)⟩
  · have hniff : ¬ (ver = none ∨ ∃ v, ver = some v ∧
        ∃ r ∈ rule.vulnerableVersions, specRangeMatches r v) :=
      fun hc => hm ((vulnMatches_iff ver rule.vulnerableVersions).mpr hc)
    have hbf := vulnMatches_false ver rule.vulnerableVersions hniff
    refine ⟨iff_of_false ?_ hniff, iff_of_true (by simp [hbf]) hniff⟩
    simp [hbf]

/-- Witness: the manifest entry `pkg==1.0.0` against the hypothetical rule
with range `<2.0.0` yields the HIGH finding quoting the CVE id, while
`pkg==3.0.0` yields no finding. -/
theorem vulnerable_dependency_range_semantics_witness :
    (∃ fd, vulnPart pkgTable "req" ("pkg", some "1.0.0") = [fd] ∧
      fd.severity = "HIGH" ∧ fd.category = "Vulnerable Dependency" ∧
      strIn "CVE-TEST-1" fd.message = true) ∧
    vulnPart pkgTable "req" ("pkg", some "3.0.0") = [] := by
  have h1 := vulnerable_dependency_range_semantics pkgTable "req" "pkg"
    (some "1.0.0") ⟨["<2.0.0"], "CVE-TEST-1", "test rule"⟩ rfl
  have h3 := vulnerable_dependency_range_semantics pkgTable "req" "pkg"
    (some "3.0.0") ⟨["<2.0.0"], "CVE-TEST-1", "test rule"⟩ rfl
  refine ⟨h1.1.mpr (Or.inr ⟨"1.0.0", rfl, "<2.0.0", by decide, by decide⟩), ?_⟩
  refine h3.2.mpr ?_
  rintro (h | ⟨v, hv, r, hr, hmm⟩)
  · exact absurd h (by decide)
  · obtain rfl : v = "3.0.0" := by injection hv with h; exact h.symm
    have : r = "<2.0.0" := by simpa using hr
    subst this
    exact absurd hmm (by decide)

/-! ## Decomposition of scan_directory (claims C6, C1, C9) -/

lemma runScanner_error (fuel : Nat) (f : SrcFile) (e : String)
    (hf : f.parsed = Except.error e) :
    runScanner fuel f = some ⟨f.path, [], [], [(f.path, e)]⟩ := by
  simp [runScanner, hf]

lemma scanFiles_append (fuel : Nat) (xs ys : List SrcFile) :
    scanFiles fuel (xs ++ ys) =
      (scanFiles fuel xs).bind (fun a =>
        (scanFiles fuel ys).bind (fun b => some (a ++ b))) := by
  induction xs with
  | nil =>
    simp only [List.nil_append, scanFiles, Option.some_bind]
    cases scanFiles fuel ys <;> rfl
  | cons f rest ih =>
    simp only [List.cons_append, scanFiles]
    cases runScanner fuel f with
    | none => rfl
    | some r =>
      dsimp only
      simp only [List.append_eq]
      rw [ih]
      cases scanFiles fuel rest with
      | none => rfl
      | some a =>
        cases scanFiles fuel ys with
        | none => rfl
        | some b => simp

lemma scanFiles_forall2 (fuel : Nat) :
    ∀ (files : List SrcFile) (scans : List FileScan),
      scanFiles fuel files = some scans →
      List.Forall₂ (fun f r => runScanner fuel f = some r) files scans := by
  intro files
  induction files with
  | nil => intro scans h; cases h; exact List.Forall₂.nil
  | cons f rest ih =>
    intro scans h
    simp only [scanFiles] at h
    cases hr : runScanner fuel f with
    | none => rw [hr] at h; cases h
    | some r =>
      rw [hr] at h
      cases hs : scanFiles fuel rest with
      | none => rw [hs] at h; cases h
      | some rs =>
        rw [hs] at h
        cases h
        exact List.Forall₂.cons hr (ih rs hs)

lemma scanDirectory_eq (fuel : Nat) (env : ScanEnv) (scans : List FileScan)
    (h : scanFiles fuel env.files = some scans) :
    scanDirectory fuel env = some
      ((scans.map (fun s => s.findings)).flatten
        ++ (if hasCycleB (buildGraph (modulesToFiles env) scans) then
              [circFinding env.rootPath]
            else [])
        ++ depsFindings env,
       (scans.map (fun s => s.errors)).flatten) := by
  simp [scanDirectory, h]

/-- The order of a scan's output: first every file's findings, contiguous
and in walk order (each output block comes from `run_scanner` on the
corresponding file), then the optional aggregate Circular Import finding,
then the dependency findings. -/
theorem findings_emission_order (fuel : Nat) (env : ScanEnv)
    (scans : List FileScan) (h : scanFiles fuel env.files = some scans) :
    List.Forall₂ (fun f r => runScanner fuel f = some r) env.files scans ∧
    scanDirectory fuel env = some
      ((scans.map (fun s => s.findings)).flatten
        ++ (if hasCycleB (buildGraph (modulesToFiles env) scans) then
              [circFinding env.rootPath]
            else [])
        ++ depsFindings env,
       (scans.map (fun s => s.errors)).flatten) :=
  ⟨scanFiles_forall2 fuel env.files scans h, scanDirectory_eq fuel env scans h⟩

/-- Witness for the emission order on the concrete project `envW`. -/
theorem findings_emission_order_witness :
    List.Forall₂ (fun f r => runScanner 6 f = some r) envW.files
      [⟨"root/a.py", [], ["b"], []⟩,
       ⟨"root/bad.py", [], [], [("root/bad.py", "invalid syntax (line 3)")]⟩,
       ⟨"root/b.py", [], ["a"], []⟩,
       ⟨"root/c.py", [], ["a"], []⟩] ∧
    scanDirectory 6 envW = some
      (([⟨"root/a.py", [], ["b"], []⟩,
         (⟨"root/bad.py", [], [], [("root/bad.py", "invalid syntax (line 3)")]⟩ :
           FileScan),
         ⟨"root/b.py", [], ["a"], []⟩,
         ⟨"root/c.py", [], ["a"], []⟩].map (fun s => s.findings)).flatten
        ++ (if hasCycleB (buildGraph (modulesToFiles envW)
              [⟨"root/a.py", [], ["b"], []⟩,
               ⟨"root/bad.py", [], [], [("root/bad.py", "invalid syntax (line 3)")]⟩,
               ⟨"root/b.py", [], ["a"], []⟩,
               ⟨"root/c.py", [], ["a"], []⟩]) then
              [circFinding envW.rootPath]
            else [])
        ++ depsFindings envW,
       ([⟨"root/a.py", [], ["b"], []⟩,
         (⟨"root/bad.py", [], [], [("root/bad.py", "invalid syntax (line 3)")]⟩ :
           FileScan),
         ⟨"root/b.py", [], ["a"], []⟩,
         ⟨"root/c.py", [], ["a"], []⟩].map (fun s => s.errors)).flatten) :=
  findings_emission_order 6 envW _ rfl

/-- A file with a syntax error never aborts the scan: `scan_directory`
still returns, the bad file contributes exactly one error entry naming
the file and the error message (and no findings), and the findings of
every other file are still in the output. -/
theorem parse_error_isolated (fuel : Nat) (env : ScanEnv)
    (pre post : List SrcFile) (f : SrcFile) (e : String)
    (s1 s2 : List FileScan)
    (hfiles : env.files = pre ++ f :: post)
    (hf : f.parsed = Except.error e)
    (h1 : scanFiles fuel pre = some s1)
    (h2 : scanFiles fuel post = some s2) :
    scanDirectory fuel env = some
      ((s1.map (fun s => s.findings)).flatten
        ++ (s2.map (fun s => s.findings)).flatten
        ++ (if hasCycleB (buildGraph (modulesToFiles env)
              (s1 ++ ⟨f.path, [], [], [(f.path, e)]⟩ :: s2)) then
              [circFinding env.rootPath]
            else [])
        ++ depsFindings env,
       (s1.map (fun s => s.errors)).flatten ++ [(f.path, e)]
        ++ (s2.map (fun s => s.errors)).flatten) := by
  have hs : scanFiles fuel env.files =
      some (s1 ++ ⟨f.path, [], [], [(f.path, e)]⟩ :: s2) := by
    rw [hfiles, scanFiles_append, h1]
    simp only [scanFiles, runScanner_error fuel f e hf, h2]
    rfl
  have hd := scanDirectory_eq fuel env _ hs
  rw [hd]
  simp [List.flatten_append]

/-- A manifest package that cannot be resolved to an installed file, or
whose resolved file cannot be read, is skipped silently by the hashing
step: no Dependency Hash finding, no error entry, and the scan still
returns its normal output. -/
theorem unresolvable_package_hash_skipped (env : ScanEnv) (pkg : String)
    (ver : Option String) (fuel : Nat) (scans : List FileScan)
    (h : env.resolve pkg = none ∨
      ∃ o, env.resolve pkg = some o ∧ env.readOrigin o = none)
    (hs : scanFiles fuel env.files = some scans) :
    hashPart env (reqPathOf env) pkg = [] ∧
    depStep env (pkg, ver) = vulnPart vulnerableDeps (reqPathOf env) (pkg, ver) ∧
    scanDirectory fuel env = some
      ((scans.map (fun s => s.findings)).flatten
        ++ (if hasCycleB (buildGraph (modulesToFiles env) scans) then
              [circFinding env.rootPath]
            else [])
        ++ depsFindings env,
       (scans.map (fun s => s.errors)).flatten) := by
  have hh : hashPart env (reqPathOf env) pkg = [] := by
    rcases h with h | ⟨o, ho, hr⟩
    · simp [hashPart, h]
    · simp [hashPart, ho, hr]
  exact ⟨hh, by simp [depStep, hh], scanDirectory_eq fuel env scans hs⟩

/-- Witness: in `envW` nothing resolves, so `urllib3` is audited but not
hashed, and the scan returns normally. -/
theorem unresolvable_package_hash_skipped_witness :
    hashPart envW (reqPathOf envW) "urllib3" = [] ∧
    depStep envW ("urllib3", some "2.5.0") =
      vulnPart vulnerableDeps (reqPathOf envW) ("urllib3", some "2.5.0") ∧
    scanDirectory 6 envW = some
      (([⟨"root/a.py", [], ["b"], []⟩,
         (⟨"root/bad.py", [], [], [("root/bad.py", "invalid syntax (line 3)")]⟩ :
           FileScan),
         ⟨"root/b.py", [], ["a"], []⟩,
         ⟨"root/c.py", [], ["a"], []⟩].map (fun s => s.findings)).flatten
        ++ (if hasCycleB (buildGraph (modulesToFiles envW)
              [⟨"root/a.py", [], ["b"], []⟩,
               ⟨"root/bad.py", [], [], [("root/bad.py", "invalid syntax (line 3)")]⟩,
               ⟨"root/b.py", [], ["a"], []⟩,
               ⟨"root/c.py", [], ["a"], []⟩]) then
              [circFinding envW.rootPath]
            else [])
        ++ depsFindings envW,
       ([⟨"root/a.py", [], ["b"], []⟩,
         (⟨"root/bad.py", [], [], [("root/bad.py", "invalid syntax (line 3)")]⟩ :
           FileScan),
         ⟨"root/b.py", [], ["a"], []⟩,
         ⟨"root/c.py", [], ["a"], []⟩].map (fun s => s.errors)).flatten) :=
  unresolvable_package_hash_skipped envW "urllib3" (some "2.5.0") 6 _
    (Or.inl rfl) rfl

/-- Witness for parse-error isolation on the concrete project. -/
theorem parse_error_isolated_witness :
    scanDirectory 6 envW = some
      (([(⟨"root/a.py", [], ["b"], []⟩ : FileScan)].map
          (fun s => s.findings)).flatten
        ++ ([(⟨"root/b.py", [], ["a"], []⟩ : FileScan),
             ⟨"root/c.py", [], ["a"], []⟩].map (fun s => s.findings)).flatten
        ++ (if hasCycleB (buildGraph (modulesToFiles envW)
              ([⟨"root/a.py", [], ["b"], []⟩] ++
                ⟨"root/bad.py", [], [], [("root/bad.py", "invalid syntax (line 3)")]⟩ ::
                  [⟨"root/b.py", [], ["a"], []⟩, ⟨"root/c.py", [], ["a"], []⟩])) then
              [circFinding envW.rootPath]
            else [])
        ++ depsFindings envW,
       ([(⟨"root/a.py", [], ["b"], []⟩ : FileScan)].map
          (fun s => s.errors)).flatten
        ++ [("root/bad.py", "invalid syntax (line 3)")]
        ++ ([(⟨"root/b.py", [], ["a"], []⟩ : FileScan),
             ⟨"root/c.py", [], ["a"], []⟩].map (fun s => s.errors)).flatten) :=
  parse_error_isolated 6 envW [fileA] [fileB, fileC] fileBad
    "invalid syntax (line 3)" [⟨"root/a.py", [], ["b"], []⟩]
    [⟨"root/b.py", [], ["a"], []⟩, ⟨"root/c.py", [], ["a"], []⟩]
    rfl rfl rfl rfl

/-! ## Every stored finding is well-formed (claim C8) -/

lemma findingOK_mkReport (fn : String) (pos : Pos) (sev cat msg : String)
    (hcat : cat ∈ pfCategories) : findingOK (mkReport fn pos sev cat msg) := by
  refine ⟨?_, hcat⟩
  unfold mkReport
  dsimp only
  split_ifs with h
  · exact h
  · decide

lemma stInv_addF (st : ScanState) (pos : Pos) (sev cat msg : String)
    (h : stInv st) (hcat : cat ∈ pfCategories) :
    stInv (addF st pos sev cat msg) := by
  intro fd hfd
  simp only [addF, List.mem_append, List.mem_singleton] at hfd
  rcases hfd with hfd | rfl
  · exact h fd hfd
  · exact findingOK_mkReport _ _ _ _ _ hcat

lemma callChecks_stInv (st : ScanState) (pos : Pos) (f : PyExpr)
    (kws : List (Option String × PyExpr)) (h : stInv st) :
    stInv (callChecks st pos f kws) := by
  unfold callChecks
  cases f with
  | nameE p id =>
      dsimp only
      split_ifs
      · exact stInv_addF _ _ _ _ _ h (by decide)
      · exact h
  | attrE p v a =>
      cases v <;> try exact h
      dsimp only
      split_ifs <;>
        (repeat
          first
          | exact h
          | refine stInv_addF _ _ _ _ _ ?_ (by decide))
  | _ => exact h

lemma checkArgs_stInv (fuel : Nat) (pos : Pos) (d : String) :
    ∀ (args : List PyExpr) (st st' : ScanState),
      checkArgs fuel pos d st args = some st' → stInv st → stInv st' := by
  intro args
  induction args with
  | nil => intro st st' h hin; cases h; exact hin
  | cons a rest ih =>
    intro st st' h hin
    cases a with
    | nameE p id =>
      simp only [checkArgs] at h
      cases hg : getAllAliasesF (aliasesOf st.aliases) fuel id with
      | none => rw [hg] at h; cases h
      | some closure =>
        rw [hg] at h
        dsimp only at h
        split_ifs at h with hc
        · exact ih _ _ h (stInv_addF _ _ _ _ _ hin (by decide))
        · exact ih _ _ h hin
    | _ => exact ih _ _ h hin

lemma assignFold_stInv (b : Bool) (vn : Option String) (pos : Pos) :
    ∀ (targets : List PyExpr) (acc : ScanState × Bool),
      stInv acc.1 →
      stInv (targets.foldl (assignTargetStep b vn pos) acc).1 := by
  intro targets
  induction targets with
  | nil => intro acc h; exact h
  | cons t rest ih =>
    intro acc h
    refine ih _ ?_
    unfold assignTargetStep
    cases t <;> try exact h
    dsimp only
    split_ifs with hs
    · cases vn <;> exact stInv_addF _ _ _ _ _ h (by decide)
    · cases vn <;> exact h

lemma markStep_findings (s : ScanState) (t : PyExpr) :
    (markStep s t).findings = s.findings := by
  unfold markStep
  cases t <;> try rfl
  dsimp only
  split_ifs <;> rfl

lemma markSensitiveTargets_findings (st : ScanState) :
    ∀ targets : List PyExpr,
      (markSensitiveTargets st targets).findings = st.findings := by
  suffices h : ∀ (targets : List PyExpr) (s : ScanState),
      (targets.foldl markStep s).findings = s.findings by
    intro targets
    exact h targets st
  intro targets
  induction targets with
  | nil => intro s; rfl
  | cons t rest ih =>
    intro s
    rw [List.foldl_cons, ih, markStep_findings]

lemma visitList_stInv (visit : ScanState → PyExpr → Option ScanState)
    (hv : ∀ s e s', visit s e = some s' → stInv s → stInv s') :
    ∀ (l : List PyExpr) (st st' : ScanState),
      visitList visit st l = some st' → stInv st → stInv st' := by
  intro l
  induction l with
  | nil => intro st st' h hin; cases h; exact hin
  | cons e rest ih =>
    intro st st' h hin
    simp only [visitList] at h
    cases he : visit st e with
    | none => rw [he] at h; cases h
    | some s1 => rw [he] at h; exact ih _ _ h (hv _ _ _ he hin)

lemma visitKws_stInv (visit : ScanState → PyExpr → Option ScanState)
    (hv : ∀ s e s', visit s e = some s' → stInv s → stInv s') :
    ∀ (l : List (Option String × PyExpr)) (st st' : ScanState),
      visitKws visit st l = some st' → stInv st → stInv st' := by
  intro l
  induction l with
  | nil => intro st st' h hin; cases h; exact hin
  | cons kv rest ih =>
    intro st st' h hin
    simp only [visitKws] at h
    cases he : visit st kv.2 with
    | none => rw [he] at h; cases h
    | some s1 => rw [he] at h; exact ih _ _ h (hv _ _ _ he hin)

lemma visitExpr_stInv :
    ∀ (fuel : Nat) (st : ScanState) (e : PyExpr) (st' : ScanState),
      visitExpr fuel st e = some st' → stInv st → stInv st' := by
  intro fuel
  induction fuel with
  | zero => intro st e st' h; cases h
  | succ n ih =>
    intro st e st' h hin
    cases e with
    | nameE p id => cases h; exact hin
    | constE p c => cases h; exact hin
    | otherE p => cases h; exact hin
    | attrE pos v a =>
      simp only [visitExpr] at h
      refine ih _ _ _ h ?_
      cases v <;> try exact hin
      dsimp only at h ⊢
      split_ifs <;>
        first
        | exact stInv_addF _ _ _ _ _ hin (by decide)
        | exact hin
    | callE pos func args kws =>
      simp only [visitExpr] at h
      have h0 : stInv (callChecks st pos func kws) :=
        callChecks_stInv st pos func kws hin
      cases hca : checkArgs n pos (funcDescr func) (callChecks st pos func kws)
          args with
      | none => rw [hca] at h; cases h
      | some s1 =>
        rw [hca] at h
        dsimp only at h
        have h1 := checkArgs_stInv n pos (funcDescr func) args _ _ hca h0
        cases hf : visitExpr n s1 func with
        | none => rw [hf] at h; cases h
        | some s2 =>
          rw [hf] at h
          dsimp only at h
          have h2 := ih _ _ _ hf h1
          cases hl : visitList (visitExpr n) s2 args with
          | none => rw [hl] at h; cases h
          | some s3 =>
            rw [hl] at h
            dsimp only at h
            have h3 := visitList_stInv _ (fun s e s' he hs => ih s e s' he hs)
              args _ _ hl h2
            exact visitKws_stInv _ (fun s e s' he hs => ih s e s' he hs)
              kws _ _ h h3
    | binOpE pos isAdd l r =>
      simp only [visitExpr] at h
      have hst1 : ∀ st1 : ScanState, stInv st1 →
          (match visitExpr n st1 l with
            | none => none
            | some s => visitExpr n s r) = some st' → stInv st' := by
        intro st1 h1 hh
        cases hl : visitExpr n st1 l with
        | none => rw [hl] at hh; cases hh
        | some s2 => rw [hl] at hh; exact ih _ _ _ hh (ih _ _ _ hl h1)
      refine hst1 _ ?_ h
      cases isAdd <;> cases l <;> try exact hin
      rename_i pc c
      cases c <;> try exact hin
      dsimp only
      split_ifs
      · exact stInv_addF _ _ _ _ _ hin (by decide)
      · exact hin

lemma visitStmt_stInv (fuel : Nat) (st : ScanState) (s : PyStmt)
    (st' : ScanState) (h : visitStmt fuel st s = some st') (hin : stInv st) :
    stInv st' := by
  cases s with
  | assignS pos targets value =>
    simp only [visitStmt] at h
    have hcont : ∀ s0 : ScanState, stInv s0 →
        (match visitList (visitExpr fuel) s0 targets with
          | none => none
          | some s => visitExpr fuel s value) = some st' → stInv st' := by
      intro s0 h0 hh
      cases hl : visitList (visitExpr fuel) s0 targets with
      | none => rw [hl] at hh; cases hh
      | some s2 =>
        rw [hl] at hh
        exact visitExpr_stInv fuel _ _ _ hh
          (visitList_stInv _
            (fun s e s' he hs => visitExpr_stInv fuel s e s' he hs)
            targets _ _ hl h0)
    refine hcont _ ?_ h
    split_ifs
    · intro fd hfd
      rw [markSensitiveTargets_findings] at hfd
      exact assignFold_stInv _ _ pos targets (st, false) hin fd hfd
    · exact assignFold_stInv _ _ pos targets (st, false) hin
  | exprS e => exact visitExpr_stInv fuel _ _ _ h hin
  | importS pos names =>
    simp only [visitStmt] at h
    cases h
    revert hin
    revert st
    induction names with
    | nil => intro st hin; exact hin
    | cons nm rest ih =>
      intro st hin
      rw [List.foldl_cons]
      apply ih
      dsimp only
      split_ifs <;>
        (intro fd hfd
         first
         | exact hin fd hfd
         | exact stInv_addF _ _ _ _ _ hin (by decide) fd hfd)
  | importFromS pos module level =>
    simp only [visitStmt] at h
    cases h
    cases module with
    | none => exact hin
    | some m =>
      dsimp only
      split_ifs <;>
        (intro fd hfd
         first
         | exact hin fd hfd
         | exact stInv_addF _ _ _ _ _ hin (by decide) fd hfd)
  | assertS pos test =>
    simp only [visitStmt] at h
    exact visitExpr_stInv fuel _ _ _ h (stInv_addF _ _ _ _ _ hin (by decide))

lemma visitStmts_stInv (fuel : Nat) :
    ∀ (stmts : List PyStmt) (st st' : ScanState),
      visitStmts fuel st stmts = some st' → stInv st → stInv st' := by
  intro stmts
  induction stmts with
  | nil => intro st st' h hin; cases h; exact hin
  | cons s rest ih =>
    intro st st' h hin
    simp only [visitStmts] at h
    cases hs : visitStmt fuel st s with
    | none => rw [hs] at h; cases h
    | some s1 =>
      rw [hs] at h
      exact ih _ _ h (visitStmt_stInv fuel st s s1 hs hin)

lemma runScanner_findingOK (fuel : Nat) (f : SrcFile) (r : FileScan)
    (h : runScanner fuel f = some r) : ∀ fd ∈ r.findings, findingOK fd := by
  unfold runScanner at h
  cases hp : f.parsed with
  | error e =>
    rw [hp] at h
    dsimp only at h
    cases h
    intro fd hfd
    cases hfd
  | ok stmts =>
    rw [hp] at h
    dsimp only at h
    cases hv : visitStmts fuel (initState f.path) stmts with
    | none => rw [hv] at h; cases h
    | some st =>
      rw [hv] at h
      cases h
      intro fd hfd
      exact visitStmts_stInv fuel stmts _ _ hv (fun fd h => by cases h) fd hfd

lemma scanFiles_findingOK (fuel : Nat) :
    ∀ (files : List SrcFile) (scans : List FileScan),
      scanFiles fuel files = some scans →
      ∀ r ∈ scans, ∀ fd ∈ r.findings, findingOK fd := by
  intro files
  induction files with
  | nil => intro scans h r hr; cases h; cases hr
  | cons f rest ih =>
    intro scans h r hr
    simp only [scanFiles] at h
    cases hf : runScanner fuel f with
    | none => rw [hf] at h; cases h
    | some r0 =>
      rw [hf] at h
      dsimp only at h
      cases hs : scanFiles fuel rest with
      | none => rw [hs] at h; cases h
      | some rs =>
        rw [hs] at h
        cases h
        rcases List.mem_cons.mp hr with rfl | hr'
        · exact runScanner_findingOK fuel f r hf
        · exact ih rs hs r hr'

lemma depsFindings_sev (env : ScanEnv) :
    ∀ fd ∈ depsFindings env, fd.severity ∈ severitiesList ∧
      fd.category ∈ ["Vulnerable Dependency", "Dependency Hash"] := by
  intro fd hfd
  unfold depsFindings at hfd
  cases hman : env.manifest with
  | none => rw [hman] at hfd; cases hfd
  | some lines =>
    rw [hman] at hfd
    rw [List.mem_flatten] at hfd
    obtain ⟨l, hl, hfl⟩ := hfd
    rw [List.mem_map] at hl
    obtain ⟨p, hp, rfl⟩ := hl
    unfold depStep at hfl
    rw [List.mem_append] at hfl
    rcases hfl with hfl | hfl
    · unfold vulnPart at hfl
      cases hq : vulnerableDeps.find? (fun q => q.1 == p.1) with
      | none => rw [hq] at hfl; cases hfl
      | some q =>
        rw [hq] at hfl
        dsimp only at hfl
        split_ifs at hfl
        · rcases List.mem_singleton.mp hfl with rfl
          refine ⟨?_, ?_⟩ <;> simp [mkVulnFinding, severitiesList]
        · cases hfl
    · unfold hashPart at hfl
      cases hr : env.resolve p.1 with
      | none => rw [hr] at hfl; cases hfl
      | some o =>
        rw [hr] at hfl
        dsimp only at hfl
        cases hro : env.readOrigin o with
        | none => rw [hro] at hfl; cases hfl
        | some content =>
          rw [hro] at hfl
          rcases List.mem_singleton.mp hfl with rfl
          refine ⟨?_, ?_⟩ <;> simp [severitiesList]

/-- Every finding `scan_directory` returns carries a recognized severity:
`report` coerces any unrecognized severity to MEDIUM before storing, and
the directly appended circular-import and dependency findings use literal
recognized severities. -/
theorem severity_always_recognized :
    (∀ fn pos sev cat msg, sev ∉ severitiesList →
      (mkReport fn pos sev cat msg).severity = "MEDIUM") ∧
    (∀ fuel env out, scanDirectory fuel env = some out →
      ∀ fd ∈ out.1, fd.severity ∈ severitiesList) := by
  constructor
  · intro fn pos sev cat msg h
    simp [mkReport, h]
  · intro fuel env out hout fd hfd
    cases hs : scanFiles fuel env.files with
    | none => rw [scanDirectory, hs] at hout; cases hout
    | some scans =>
      rw [scanDirectory_eq fuel env scans hs] at hout
      cases hout
      simp only [List.mem_append] at hfd
      rcases hfd with (hfd | hfd) | hfd
      · rw [List.mem_flatten] at hfd
        obtain ⟨l, hl, hfl⟩ := hfd
        rw [List.mem_map] at hl
        obtain ⟨r, hr, rfl⟩ := hl
        exact (scanFiles_findingOK fuel env.files scans hs r hr fd hfl).1
      · split_ifs at hfd
        · rcases List.mem_singleton.mp hfd with rfl
          simp [circFinding, severitiesList]
        · cases hfd
      · exact (depsFindings_sev env fd hfd).1

/-- Witness: an unrecognized severity collapses to MEDIUM, and the
concrete scan of `envW` stores only recognized severities. -/
theorem severity_always_recognized_witness :
    (mkReport "w.py" wPos "BOGUS" "Dangerous Sink" "m").severity = "MEDIUM" ∧
    ∀ fd ∈ (scanDirectory 6 envW).getD ([], []) |>.1,
      fd.severity ∈ severitiesList := by
  constructor
  · exact severity_always_recognized.1 "w.py" wPos "BOGUS" "Dangerous Sink" "m"
      (by decide)
  · intro fd hfd
    exact severity_always_recognized.2 6 envW ((scanDirectory 6 envW).getD ([], []))
      rfl fd hfd

/-! ## Expression visits only append findings (core-state preservation) -/

lemma sameCore_refl (st : ScanState) : sameCore st st := ⟨rfl, rfl, rfl, rfl⟩

lemma sameCore_trans {a b c : ScanState} (h1 : sameCore a b) (h2 : sameCore b c) :
    sameCore a c :=
  ⟨h2.1.trans h1.1, h2.2.1.trans h1.2.1, h2.2.2.1.trans h1.2.2.1,
   h2.2.2.2.trans h1.2.2.2⟩

lemma sameCore_addF (st : ScanState) (pos : Pos) (sev cat msg : String) :
    sameCore st (addF st pos sev cat msg) := ⟨rfl, rfl, rfl, rfl⟩

lemma callChecks_sameCore (st : ScanState) (pos : Pos) (f : PyExpr)
    (kws : List (Option String × PyExpr)) :
    sameCore st (callChecks st pos f kws) := by
  unfold callChecks
  cases f with
  | nameE p id =>
      dsimp only
      split_ifs <;> exact ⟨rfl, rfl, rfl, rfl⟩
  | attrE p v a =>
      cases v <;> try exact sameCore_refl st
      dsimp only
      split_ifs <;> exact ⟨rfl, rfl, rfl, rfl⟩
  | _ => exact sameCore_refl st

lemma checkArgs_spec (fuel : Nat) (pos : Pos) (d : String) :
    ∀ (args : List PyExpr) (st st' : ScanState),
      checkArgs fuel pos d st args = some st' →
      ∃ Δ, st' = { st with findings := st.findings ++ Δ } ∧
        ∀ fd ∈ Δ, fd.severity = "MEDIUM" ∧ fd.category = "Sensitive Data Exposure" := by
  intro args
  induction args with
  | nil =>
    intro st st' h
    cases h
    exact ⟨[], by simp, by simp⟩
  | cons a rest ih =>
    intro st st' h
    cases a with
    | nameE p id =>
      simp only [checkArgs] at h
      cases hg : getAllAliasesF (aliasesOf st.aliases) fuel id with
      | none => rw [hg] at h; cases h
      | some closure =>
        rw [hg] at h
        dsimp only at h
        split_ifs at h with hc
        · obtain ⟨Δ, rfl, hΔ⟩ := ih _ _ h
          refine ⟨[mkReport st.filename pos "MEDIUM" "Sensitive Data Exposure"
              ("Sensitive variable '" ++ id ++ "' (or alias) used in call to "
                ++ d ++ ".")] ++ Δ, by simp [addF], ?_⟩
          intro fd hfd
          rcases List.mem_append.mp hfd with hfd | hfd
          · rcases List.mem_singleton.mp hfd with rfl
            exact ⟨rfl, rfl⟩
          · exact hΔ fd hfd
        · obtain ⟨Δ, rfl, hΔ⟩ := ih _ _ h
          exact ⟨Δ, rfl, hΔ⟩
    | constE p c => exact ih _ _ h
    | attrE p v a' => exact ih _ _ h
    | callE p f' a' k' => exact ih _ _ h
    | binOpE p b l r => exact ih _ _ h
    | otherE p => exact ih _ _ h

lemma visitExpr_sameCore :
    ∀ (fuel : Nat) (st : ScanState) (e : PyExpr) (st' : ScanState),
      visitExpr fuel st e = some st' → sameCore st st' := by
  intro fuel
  induction fuel with
  | zero => intro st e st' h; cases h
  | succ n ih =>
    intro st e st' h
    have listCore : ∀ (l : List PyExpr) (s s' : ScanState),
        visitList (visitExpr n) s l = some s' → sameCore s s' := by
      intro l
      induction l with
      | nil => intro s s' hh; cases hh; exact sameCore_refl s
      | cons e' rest ihl =>
        intro s s' hh
        simp only [visitList] at hh
        cases he : visitExpr n s e' with
        | none => rw [he] at hh; cases hh
        | some s1 =>
          rw [he] at hh
          exact sameCore_trans (ih _ _ _ he) (ihl _ _ hh)
    have kwsCore : ∀ (l : List (Option String × PyExpr)) (s s' : ScanState),
        visitKws (visitExpr n) s l = some s' → sameCore s s' := by
      intro l
      induction l with
      | nil => intro s s' hh; cases hh; exact sameCore_refl s
      | cons kv rest ihl =>
        intro s s' hh
        simp only [visitKws] at hh
        cases he : visitExpr n s kv.2 with
        | none => rw [he] at hh; cases hh
        | some s1 =>
          rw [he] at hh
          exact sameCore_trans (ih _ _ _ he) (ihl _ _ hh)
    cases e with
    | nameE p id => cases h; exact sameCore_refl st
    | constE p c => cases h; exact sameCore_refl st
    | otherE p => cases h; exact sameCore_refl st
    | attrE pos v a =>
      simp only [visitExpr] at h
      refine sameCore_trans ?_ (ih _ _ _ h)
      cases v <;> try exact sameCore_refl st
      dsimp only
      split_ifs <;> exact ⟨rfl, rfl, rfl, rfl⟩
    | callE pos func args kws =>
      simp only [visitExpr] at h
      have c0 := callChecks_sameCore st pos func kws
      cases hca : checkArgs n pos (funcDescr func) (callChecks st pos func kws)
          args with
      | none => rw [hca] at h; cases h
      | some s1 =>
        rw [hca] at h
        dsimp only at h
        obtain ⟨Δ, rfl, -⟩ := checkArgs_spec n pos (funcDescr func) args _ _ hca
        have hrec : sameCore (callChecks st pos func kws)
            { callChecks st pos func kws with
              findings := (callChecks st pos func kws).findings ++ Δ } :=
          ⟨rfl, rfl, rfl, rfl⟩
        cases hf : visitExpr n
            { callChecks st pos func kws with
              findings := (callChecks st pos func kws).findings ++ Δ } func with
        | none => rw [hf] at h; cases h
        | some s2 =>
          rw [hf] at h
          dsimp only at h
          cases hl : visitList (visitExpr n) s2 args with
          | none => rw [hl] at h; cases h
          | some s3 =>
            rw [hl] at h
            exact sameCore_trans c0 (sameCore_trans hrec
              (sameCore_trans (ih _ _ _ hf)
                (sameCore_trans (listCore _ _ _ hl) (kwsCore _ _ _ h))))
    | binOpE pos isAdd l r =>
      simp only [visitExpr] at h
      have hst1 : ∀ st1 : ScanState, sameCore st st1 →
          (match visitExpr n st1 l with
            | none => none
            | some s => visitExpr n s r) = some st' → sameCore st st' := by
        intro st1 h1 hh
        cases hl : visitExpr n st1 l with
        | none => rw [hl] at hh; cases hh
        | some s2 =>
          rw [hl] at hh
          exact sameCore_trans h1 (sameCore_trans (ih _ _ _ hl) (ih _ _ _ hh))
      refine hst1 _ ?_ h
      cases isAdd <;> cases l <;> try exact sameCore_refl st
      rename_i pc c
      cases c <;> try exact sameCore_refl st
      dsimp only
      split_ifs <;> exact ⟨rfl, rfl, rfl, rfl⟩

/-! ## Multi-target assignments mark every name target (claim C10) -/

lemma assignFold_snd_mono (b : Bool) (vn : Option String) (pos : Pos) :
    ∀ (targets : List PyExpr) (acc : ScanState × Bool), acc.2 = true →
      (targets.foldl (assignTargetStep b vn pos) acc).2 = true := by
  intro targets
  induction targets with
  | nil => intro acc h; exact h
  | cons t rest ih =>
    intro acc h
    rw [List.foldl_cons]
    refine ih _ ?_
    unfold assignTargetStep
    cases t <;> try exact h
    dsimp only
    split_ifs <;> cases vn <;> simp_all

lemma assignFold_hit (vn : Option String) (pos : Pos) :
    ∀ (targets : List PyExpr) (acc : ScanState × Bool) (p : Pos) (id : String),
      PyExpr.nameE p id ∈ targets →
      sensitiveKeywords.any (fun k => strIn k (lowerStr id)) = true →
      (targets.foldl (assignTargetStep true vn pos) acc).2 = true := by
  intro targets
  induction targets with
  | nil => intro acc p id h; cases h
  | cons t rest ih =>
    intro acc p id hmem hkw
    rcases List.mem_cons.mp hmem with rfl | hmem'
    · rw [List.foldl_cons]
      refine assignFold_snd_mono true vn pos rest _ ?_
      unfold assignTargetStep
      dsimp only
      rw [if_pos ⟨hkw, rfl⟩]
      cases vn <;> rfl
    · rw [List.foldl_cons]
      exact ih _ p id hmem' hkw

lemma assignFold_core (b : Bool) (pos : Pos) :
    ∀ (targets : List PyExpr) (acc : ScanState × Bool),
      (targets.foldl (assignTargetStep b none pos) acc).1.sensitiveVars
          = acc.1.sensitiveVars ∧
      (targets.foldl (assignTargetStep b none pos) acc).1.aliases
          = acc.1.aliases ∧
      (targets.foldl (assignTargetStep b none pos) acc).1.filename
          = acc.1.filename := by
  intro targets
  induction targets with
  | nil => intro acc; exact ⟨rfl, rfl, rfl⟩
  | cons t rest ih =>
    intro acc
    rw [List.foldl_cons]
    refine (ih _).imp (fun h => h.trans ?_)
      (fun h => h.imp (fun h => h.trans ?_) (fun h => h.trans ?_)) <;>
      (unfold assignTargetStep
       cases t <;> try rfl
       dsimp only
       split_ifs <;> rfl)

lemma markFold_mono :
    ∀ (targets : List PyExpr) (s : ScanState) (x : String),
      x ∈ s.sensitiveVars → x ∈ (targets.foldl markStep s).sensitiveVars := by
  intro targets
  induction targets with
  | nil => intro s x h; exact h
  | cons t rest ih =>
    intro s x h
    rw [List.foldl_cons]
    refine ih _ x ?_
    unfold markStep
    cases t <;> try exact h
    dsimp only
    split_ifs
    · exact h
    · exact List.mem_append_left _ h

lemma markFold_adds :
    ∀ (targets : List PyExpr) (s : ScanState) (p : Pos) (id : String),
      PyExpr.nameE p id ∈ targets →
      id ∈ (targets.foldl markStep s).sensitiveVars := by
  intro targets
  induction targets with
  | nil => intro s p id h; cases h
  | cons t rest ih =>
    intro s p id hmem
    rcases List.mem_cons.mp hmem with rfl | hmem'
    · rw [List.foldl_cons]
      refine markFold_mono rest _ id ?_
      unfold markStep
      dsimp only
      split_ifs with h
      · exact h
      · exact List.mem_append_right _ (by simp)
    · rw [List.foldl_cons]
      exact ih _ p id hmem'

lemma markFold_core :
    ∀ (targets : List PyExpr) (s : ScanState),
      (targets.foldl markStep s).aliases = s.aliases ∧
      (targets.foldl markStep s).filename = s.filename := by
  intro targets
  induction targets with
  | nil => intro s; exact ⟨rfl, rfl⟩
  | cons t rest ih =>
    intro s
    rw [List.foldl_cons]
    refine (ih _).imp (fun h => h.trans ?_) (fun h => h.trans ?_) <;>
      (unfold markStep
       cases t <;> try rfl
       dsimp only
       split_ifs <;> rfl)

lemma visitExpr_simple (fuel : Nat) (hfuel : 1 ≤ fuel) (st : ScanState)
    (e : PyExpr) (hs : simpleExpr e = true) : visitExpr fuel st e = some st := by
  match fuel, hfuel with
  | n + 1, _ =>
    cases e <;> first | rfl | (exact absurd hs (by simp [simpleExpr]))

lemma visitList_simple (fuel : Nat) (hfuel : 1 ≤ fuel) :
    ∀ (l : List PyExpr) (st : ScanState), (∀ e ∈ l, simpleExpr e = true) →
      visitList (visitExpr fuel) st l = some st := by
  intro l
  induction l with
  | nil => intro st h; rfl
  | cons e rest ih =>
    intro st h
    simp only [visitList,
      visitExpr_simple fuel hfuel st e (h e (List.mem_cons_self e rest))]
    exact ih st (fun e' he' => h e' (List.mem_cons_of_mem e he'))

lemma visitList_sameCore (fuel : Nat) :
    ∀ (l : List PyExpr) (st st' : ScanState),
      visitList (visitExpr fuel) st l = some st' → sameCore st st' := by
  intro l
  induction l with
  | nil => intro st st' h; cases h; exact sameCore_refl st
  | cons e rest ih =>
    intro st st' h
    simp only [visitList] at h
    cases he : visitExpr fuel st e with
    | none => rw [he] at h; cases h
    | some s1 =>
      rw [he] at h
      exact sameCore_trans (visitExpr_sameCore fuel _ _ _ he) (ih _ _ h)

lemma visit_sensitive_call (fuel : Nat) (hfuel : 2 ≤ fuel) (st : ScanState)
    (hal : st.aliases = []) (gpos fpos apos : Pos) (gname id : String)
    (hid : id ∈ st.sensitiveVars) :
    ∃ st2, visitExpr fuel st
        (.callE gpos (.nameE fpos gname) [.nameE apos id] []) = some st2 ∧
      mkReport st.filename gpos "MEDIUM" "Sensitive Data Exposure"
        ("Sensitive variable '" ++ id ++ "' (or alias) used in call to "
          ++ gname ++ ".") ∈ st2.findings := by
  match fuel, hfuel with
  | n + 1, hfuel =>
    have hn : 1 ≤ n := by omega
    have c0 := callChecks_sameCore st gpos (.nameE fpos gname) []
    set st0 := callChecks st gpos (.nameE fpos gname) [] with hst0
    have hga : getAllAliasesF (aliasesOf st0.aliases) n id = some [id] := by
      rw [c0.2.2.1, hal]
      match n, hn with
      | m + 1, _ => rfl
    have hhit : st0.sensitiveVars.any (fun v => v ∈ [id]) = true := by
      rw [List.any_eq_true]
      exact ⟨id, by rw [c0.2.2.2]; exact hid, by simp⟩
    have hca : checkArgs n gpos (funcDescr (.nameE fpos gname)) st0
        [.nameE apos id] = some (addF st0 gpos "MEDIUM" "Sensitive Data Exposure"
          ("Sensitive variable '" ++ id ++ "' (or alias) used in call to "
            ++ gname ++ ".")) := by
      simp only [checkArgs, hga]
      rw [if_pos hhit]
      rfl
    have hrun : visitExpr (n + 1) st
        (.callE gpos (.nameE fpos gname) [.nameE apos id] []) =
        some (addF st0 gpos "MEDIUM" "Sensitive Data Exposure"
          ("Sensitive variable '" ++ id ++ "' (or alias) used in call to "
            ++ gname ++ ".")) := by
      show (match checkArgs n gpos (funcDescr (.nameE fpos gname)) st0
          [.nameE apos id] with
        | none => none
        | some st =>
          match visitExpr n st (.nameE fpos gname) with
          | none => none
          | some st =>
            match visitList (visitExpr n) st [.nameE apos id] with
            | none => none
            | some st => visitKws (visitExpr n) st []) = _
      rw [hca]
      dsimp only
      rw [visitExpr_simple n hn _ _ (by simp [simpleExpr])]
      dsimp only
      rw [visitList_simple n hn _ _ (fun e he => by
        rcases List.mem_singleton.mp he with rfl
        simp [simpleExpr])]
      rfl
    refine ⟨_, hrun, ?_⟩
    show mkReport st.filename gpos "MEDIUM" "Sensitive Data Exposure" _
      ∈ (addF st0 gpos "MEDIUM" "Sensitive Data Exposure" _).findings
    rw [addF]
    dsimp only
    rw [c0.1]
    exact List.mem_append_right _ (by simp)

/-- A multi-target assignment whose right-hand side is a literal and at
least one of whose name targets contains a sensitive keyword adds every
plain-name target — keyword-bearing or not — to the sensitive-name set,
leaves the alias relation untouched, and a later call passing any of
those names emits one MEDIUM Sensitive Data Exposure finding. -/
theorem multi_target_assign_marks_all_names (fuel : Nat) (st : ScanState)
    (pos cpos : Pos) (targets : List PyExpr) (c : PyConst) (st' : ScanState)
    (hsens : ∃ p id, PyExpr.nameE p id ∈ targets ∧
      sensitiveKeywords.any (fun k => strIn k (lowerStr id)) = true)
    (hvisit : visitStmt fuel st (.assignS pos targets (.constE cpos c))
      = some st') :
    (∀ p id, PyExpr.nameE p id ∈ targets → id ∈ st'.sensitiveVars) ∧
    st'.aliases = st.aliases ∧
    (∀ fuel2 gpos fpos apos gname p id, 2 ≤ fuel2 →
      PyExpr.nameE p id ∈ targets → st.aliases = [] →
      ∃ st2, visitExpr fuel2 st'
          (.callE gpos (.nameE fpos gname) [.nameE apos id] []) = some st2 ∧
        mkReport st'.filename gpos "MEDIUM" "Sensitive Data Exposure"
          ("Sensitive variable '" ++ id ++ "' (or alias) used in call to "
            ++ gname ++ ".") ∈ st2.findings) := by
  obtain ⟨p0, id0, hmem0, hkw0⟩ := hsens
  simp only [visitStmt] at hvisit
  rw [assignFold_hit none pos targets (st, false) p0 id0 hmem0 hkw0] at hvisit
  rw [if_pos rfl] at hvisit
  have hcont : sameCore
      (markSensitiveTargets
        (targets.foldl (assignTargetStep true none pos) (st, false)).1 targets)
      st' := by
    cases hl : visitList (visitExpr fuel)
        (markSensitiveTargets
          (targets.foldl (assignTargetStep true none pos) (st, false)).1 targets)
        targets with
    | none => rw [hl] at hvisit; cases hvisit
    | some s2 =>
      rw [hl] at hvisit
      exact sameCore_trans (visitList_sameCore fuel targets _ _ hl)
        (visitExpr_sameCore fuel _ _ _ hvisit)
  have hsv : ∀ p id, PyExpr.nameE p id ∈ targets → id ∈ st'.sensitiveVars := by
    intro p id hmem
    rw [hcont.2.2.2]
    exact markFold_adds targets _ p id hmem
  have hala : st'.aliases = st.aliases := by
    rw [hcont.2.2.1]
    unfold markSensitiveTargets at *
    rw [(markFold_core targets _).1]
    exact (assignFold_core true pos targets (st, false)).2.1
  refine ⟨hsv, hala, ?_⟩
  intro fuel2 gpos fpos apos gname p id hfuel2 hmem hal0
  exact visit_sensitive_call fuel2 hfuel2 st' (hala.trans hal0) gpos fpos apos
    gname id (hsv p id hmem)

/-- Witness: `x = password = "s"` marks both `password` and the
keyword-free `x` sensitive, and `send(x)` then emits the MEDIUM
Sensitive Data Exposure finding. -/
theorem multi_target_assign_marks_all_names_witness :
    (∀ p id, PyExpr.nameE p id ∈
        [PyExpr.nameE wPos "x", PyExpr.nameE wPos "password"] →
      id ∈ (⟨"w.py",
        [⟨"w.py", 1, 0, "HIGH", "Hardcoded Secret",
          "Potential sensitive data in variable 'password'."⟩], [], [],
        ["x", "password"]⟩ : ScanState).sensitiveVars) ∧
    (⟨"w.py",
      [⟨"w.py", 1, 0, "HIGH", "Hardcoded Secret",
        "Potential sensitive data in variable 'password'."⟩], [], [],
      ["x", "password"]⟩ : ScanState).aliases = (initState "w.py").aliases ∧
    (∃ st2, visitExpr 2
        (⟨"w.py",
          [⟨"w.py", 1, 0, "HIGH", "Hardcoded Secret",
            "Potential sensitive data in variable 'password'."⟩], [], [],
          ["x", "password"]⟩ : ScanState)
        (.callE ⟨2, 0⟩ (.nameE ⟨2, 0⟩ "send") [.nameE ⟨2, 5⟩ "x"] [])
        = some st2 ∧
      mkReport "w.py" ⟨2, 0⟩ "MEDIUM" "Sensitive Data Exposure"
        "Sensitive variable 'x' (or alias) used in call to send."
        ∈ st2.findings) := by
  have h := multi_target_assign_marks_all_names 3 (initState "w.py") wPos wPos
    [PyExpr.nameE wPos "x", PyExpr.nameE wPos "password"] (.strC "s")
    (⟨"w.py",
      [⟨"w.py", 1, 0, "HIGH", "Hardcoded Secret",
        "Potential sensitive data in variable 'password'."⟩], [], [],
      ["x", "password"]⟩ : ScanState)
    ⟨wPos, "password", by simp, by decide⟩ rfl
  refine ⟨h.1, h.2.1, ?_⟩
  exact h.2.2 2 ⟨2, 0⟩ ⟨2, 0⟩ ⟨2, 5⟩ "send" wPos "x" (by omega) (by simp) rfl

/-! ## subprocess calls with shell=True (claim C7) -/

lemma visitKws_simple (fuel : Nat) (hfuel : 1 ≤ fuel) :
    ∀ (l : List (Option String × PyExpr)) (st : ScanState),
      (∀ kv ∈ l, simpleExpr kv.2 = true) →
      visitKws (visitExpr fuel) st l = some st := by
  intro l
  induction l with
  | nil => intro st h; rfl
  | cons kv rest ih =>
    intro st h
    simp only [visitKws,
      visitExpr_simple fuel hfuel st kv.2 (h kv (List.mem_cons_self kv rest))]
    exact ih st (fun kv' hkv' => h kv' (List.mem_cons_of_mem kv hkv'))

lemma callChecks_subprocess_findings (st : ScanState) (pos apos npos : Pos)
    (a : String) (kws : List (Option String × PyExpr)) :
    (callChecks st pos (.attrE apos (.nameE npos "subprocess") a) kws).findings
      = st.findings
        ++ (if ("subprocess" ++ "." ++ a) ∈ dangerousSinks then
              [mkReport st.filename pos "HIGH" "Command Injection"
                ("Potential shell injection via '" ++ ("subprocess" ++ "." ++ a)
                  ++ "'.")]
            else [])
        ++ (if a ∈ ["Popen", "call", "check_call", "check_output", "run"]
              ∧ kws.any isShellTrueKw = true then
              [mkReport st.filename pos "CRITICAL" "Command Injection"
                ("subprocess." ++ a ++ " with shell=True enables shell injection.")]
            else []) := by
  have h2 : ¬(("subprocess" : String) = "hashlib" ∧ a ∈ weakHashes) :=
    fun hh => absurd hh.1 (by decide)
  have h4 : ¬(("subprocess" : String) = "pickle" ∧ a ∈ ["load", "loads"]) :=
    fun hh => absurd hh.1 (by decide)
  have h5 : ¬(("subprocess" : String) = "yaml" ∧ a = "load"
      ∧ ¬ kws.any isSafeLoaderKw = true) :=
    fun hh => absurd hh.1 (by decide)
  have h6 : ¬(("subprocess" : String) = "xml" ∧ a ∈ ["fromstring", "parse"]) :=
    fun hh => absurd hh.1 (by decide)
  unfold callChecks
  dsimp only
  rw [if_neg h2, if_neg h4, if_neg h5, if_neg h6]
  by_cases hc3 : a ∈ ["Popen", "call", "check_call", "check_output", "run"]
      ∧ kws.any isShellTrueKw = true
  · rw [if_pos (⟨rfl, hc3⟩ : ("subprocess" : String) = "subprocess"
        ∧ a ∈ ["Popen", "call", "check_call", "check_output", "run"]
        ∧ kws.any isShellTrueKw = true), if_pos hc3]
    by_cases hc1 : ("subprocess" ++ "." ++ a) ∈ dangerousSinks
    · rw [if_pos hc1, if_pos hc1]
      simp [addF]
    · rw [if_neg hc1, if_neg hc1]
      simp [addF]
  · rw [if_neg (fun hh => hc3 hh.2), if_neg hc3]
    by_cases hc1 : ("subprocess" ++ "." ++ a) ∈ dangerousSinks
    · rw [if_pos hc1, if_pos hc1]
      simp [addF]
    · rw [if_neg hc1, if_neg hc1]
      simp [addF]

lemma critCount_append (a b : List Finding) :
    critCount (a ++ b) = critCount a + critCount b := by
  simp [critCount, List.filter_append]

lemma critCount_medium (l : List Finding)
    (h : ∀ fd ∈ l, fd.severity = "MEDIUM" ∧ fd.category = "Sensitive Data Exposure") :
    critCount l = 0 := by
  unfold critCount
  rw [List.length_eq_zero, List.filter_eq_nil_iff]
  intro fd hfd
  rw [(h fd hfd).1]
  decide

/-- A `subprocess.{Popen, call, check_call, check_output, run}` call node
emits exactly one CRITICAL finding — a Command Injection finding — when
it carries a keyword argument literally `shell=True`, and no CRITICAL
finding at all otherwise (leaf arguments assumed, so no nested call can
contribute). -/
theorem subprocess_shell_true_critical (fuel : Nat) (st : ScanState)
    (pos apos npos : Pos) (a : String) (args : List PyExpr)
    (kws : List (Option String × PyExpr)) (st' : ScanState)
    (ha : a ∈ ["Popen", "call", "check_call", "check_output", "run"])
    (hargs : ∀ e ∈ args, simpleExpr e = true)
    (hkws : ∀ kv ∈ kws, simpleExpr kv.2 = true)
    (h : visitExpr fuel st
      (.callE pos (.attrE apos (.nameE npos "subprocess") a) args kws)
      = some st') :
    critCount st'.findings =
      critCount st.findings + (if kws.any isShellTrueKw then 1 else 0) ∧
    (kws.any isShellTrueKw = true →
      mkReport st.filename pos "CRITICAL" "Command Injection"
        ("subprocess." ++ a ++ " with shell=True enables shell injection.")
        ∈ st'.findings) := by
  match fuel, h with
  | n + 1, h =>
    simp only [visitExpr] at h
    cases hca : checkArgs n pos
        (funcDescr (.attrE apos (.nameE npos "subprocess") a))
        (callChecks st pos (.attrE apos (.nameE npos "subprocess") a) kws)
        args with
    | none => rw [hca] at h; cases h
    | some s1 =>
      rw [hca] at h
      dsimp only at h
      obtain ⟨Δa, rfl, hΔa⟩ := checkArgs_spec n pos _ args _ _ hca
      cases hf : visitExpr n
          { callChecks st pos (.attrE apos (.nameE npos "subprocess") a) kws with
            findings :=
              (callChecks st pos (.attrE apos (.nameE npos "subprocess") a)
                kws).findings ++ Δa }
          (.attrE apos (.nameE npos "subprocess") a) with
      | none => rw [hf] at h; cases h
      | some s2 =>
        rw [hf] at h
        dsimp only at h
        have hfalse : ¬(("subprocess" : String) = "os" ∧ a = "environ") :=
          fun hh => absurd hh.1 (by decide)
        match n, hca, hf, h with
        | m + 1, hca, hf, h =>
          simp only [visitExpr] at hf
          rw [if_neg hfalse] at hf
          match m, hf with
          | 0, hf => cases hf
          | k + 1, hf =>
            simp only [visitExpr] at hf
            cases hf
            rw [visitList_simple (k + 1 + 1) (by omega) args _ hargs] at h
            dsimp only at h
            rw [visitKws_simple (k + 1 + 1) (by omega) kws _ hkws] at h
            cases h
            constructor
            · show critCount
                ((callChecks st pos (.attrE apos (.nameE npos "subprocess") a)
                  kws).findings ++ Δa) = _
              rw [critCount_append, critCount_medium Δa hΔa,
                callChecks_subprocess_findings, critCount_append,
                critCount_append]
              have hA : critCount
                  (if ("subprocess" ++ "." ++ a) ∈ dangerousSinks then
                    [mkReport st.filename pos "HIGH" "Command Injection"
                      ("Potential shell injection via '"
                        ++ ("subprocess" ++ "." ++ a) ++ "'.")]
                  else []) = 0 := by
                split_ifs <;> simp [critCount, mkReport, severitiesList]
              have hB : critCount
                  (if a ∈ ["Popen", "call", "check_call", "check_output", "run"]
                      ∧ kws.any isShellTrueKw = true then
                    [mkReport st.filename pos "CRITICAL" "Command Injection"
                      ("subprocess." ++ a ++
                        " with shell=True enables shell injection.")]
                  else []) = if kws.any isShellTrueKw then 1 else 0 := by
                by_cases hs : kws.any isShellTrueKw = true
                · rw [if_pos ⟨ha, hs⟩, if_pos hs]
                  simp [critCount, mkReport, severitiesList]
                · rw [if_neg (fun hh => hs hh.2), if_neg hs]
                  rfl
              rw [hA, hB]
              omega
            · intro hs
              show mkReport st.filename pos "CRITICAL" "Command Injection" _
                ∈ (callChecks st pos (.attrE apos (.nameE npos "subprocess") a)
                  kws).findings ++ Δa
              rw [callChecks_subprocess_findings,
                if_pos (⟨ha, hs⟩ :
                  a ∈ ["Popen", "call", "check_call", "check_output", "run"]
                  ∧ kws.any isShellTrueKw = true)]
              exact List.mem_append_left _
                (List.mem_append_right _ (by simp))

/-- Witness: `subprocess.call(cmd, shell=True)` yields exactly one
CRITICAL Command Injection finding; the same call without `shell=True`
yields no CRITICAL finding. -/
theorem subprocess_shell_true_critical_witness :
    critCount
        (⟨"w7.py",
          [⟨"w7.py", 1, 0, "HIGH", "Command Injection",
            "Potential shell injection via 'subprocess.call'."⟩,
           ⟨"w7.py", 1, 0, "CRITICAL", "Command Injection",
            "subprocess.call with shell=True enables shell injection."⟩],
          [], [], []⟩ : ScanState).findings
        = critCount (initState "w7.py").findings
          + (if ([((some "shell" : Option String),
              PyExpr.constE wPos (.boolC true))].any isShellTrueKw) then 1
            else 0) ∧
      (([((some "shell" : Option String),
          PyExpr.constE wPos (.boolC true))].any isShellTrueKw) = true →
        mkReport (initState "w7.py").filename wPos "CRITICAL" "Command Injection"
          ("subprocess." ++ "call" ++ " with shell=True enables shell injection.")
          ∈ (⟨"w7.py",
            [⟨"w7.py", 1, 0, "HIGH", "Command Injection",
              "Potential shell injection via 'subprocess.call'."⟩,
             ⟨"w7.py", 1, 0, "CRITICAL", "Command Injection",
              "subprocess.call with shell=True enables shell injection."⟩],
            [], [], []⟩ : ScanState).findings) ∧
    critCount
        (⟨"w7.py",
          [⟨"w7.py", 1, 0, "HIGH", "Command Injection",
            "Potential shell injection via 'subprocess.call'."⟩],
          [], [], []⟩ : ScanState).findings
      = critCount (initState "w7.py").findings
        + (if (([] : List (Option String × PyExpr)).any isShellTrueKw) then 1
          else 0) := by
  have h1 := subprocess_shell_true_critical 3 (initState "w7.py") wPos wPos wPos
    "call" [.nameE wPos "cmd"]
    [((some "shell" : Option String), PyExpr.constE wPos (.boolC true))]
    (⟨"w7.py",
      [⟨"w7.py", 1, 0, "HIGH", "Command Injection",
        "Potential shell injection via 'subprocess.call'."⟩,
       ⟨"w7.py", 1, 0, "CRITICAL", "Command Injection",
        "subprocess.call with shell=True enables shell injection."⟩],
      [], [], []⟩ : ScanState)
    (by decide) (by intro e he; simp at he; subst he; rfl)
    (by intro kv hkv; simp at hkv; subst hkv; rfl) rfl
  have h2 := subprocess_shell_true_critical 3 (initState "w7.py") wPos wPos wPos
    "call" [.nameE wPos "cmd"] []
    (⟨"w7.py",
      [⟨"w7.py", 1, 0, "HIGH", "Command Injection",
        "Potential shell injection via 'subprocess.call'."⟩],
      [], [], []⟩ : ScanState)
    (by decide) (by intro e he; simp at he; subst he; rfl)
    (by intro kv hkv; simp at hkv) rfl
  exact ⟨h1.1, h1.2, h2.1⟩

/-! ## Correctness of the engine cycle detector (claim C5)

The Python `dfs` with a visited set and recursion stack answers `True`
exactly when the graph has a directed cycle.  Soundness: a back edge into
the stack closes a path along the stack into a cycle.  Completeness: in a
`False` run the finished (black) nodes stay closed under edges and
acyclic, and at the end every key is black. -/

lemma nbrs_subset_allNodes (g : List (String × List String)) (k m : String)
    (h : m ∈ nbrs g k) : m ∈ allNodes g := by
  unfold nbrs at h
  cases hf : g.find? (fun p => p.1 == k) with
  | none => rw [hf] at h; cases h
  | some p =>
    rw [hf] at h
    have hp : p ∈ g := List.mem_of_find?_eq_some hf
    unfold allNodes
    refine List.mem_append_right _ ?_
    rw [List.mem_flatten]
    exact ⟨p.2, List.mem_map.mpr ⟨p, hp, rfl⟩, h⟩

lemma keysOf_subset_allNodes (g : List (String × List String)) (k : String)
    (h : k ∈ keysOf g) : k ∈ allNodes g :=
  List.mem_append_left _ h

lemma gEdge_mem_keys (g : List (String × List String)) (n m : String)
    (h : gEdge g n m) : n ∈ keysOf g := by
  unfold gEdge nbrs at h
  cases hf : g.find? (fun p => p.1 == n) with
  | none => rw [hf] at h; cases h
  | some q =>
    have hq : q ∈ g := List.mem_of_find?_eq_some hf
    have hpred := List.find?_some hf
    have hqn : q.1 = n := by simpa using hpred
    unfold keysOf
    exact hqn ▸ List.mem_map.mpr ⟨q, hq, rfl⟩

lemma nbrs_mem_univ (g : List (String × List String)) (k m : String)
    (h : m ∈ nbrs g k) : m ∈ univFS g := by
  unfold univFS
  rw [List.mem_toFinset]
  exact nbrs_subset_allNodes g k m h

lemma dfsList_mono (_g : List (String × List String))
    (step : Finset String → String → Option (Bool × Finset String))
    (stack : Finset String)
    (hstep : ∀ v m b v', step v m = some (b, v') → v ⊆ v') :
    ∀ (l : List String) (visited : Finset String) (b : Bool)
      (V' : Finset String),
      dfsList step stack visited l = some (b, V') → visited ⊆ V' := by
  intro l
  induction l with
  | nil =>
    intro visited b V' h
    cases h
    exact subset_rfl
  | cons m rest ih =>
    intro visited b V' h
    simp only [dfsList] at h
    split_ifs at h with h1 h2
    · cases h; exact subset_rfl
    · exact ih _ _ _ h
    · cases hs : step visited m with
      | none => rw [hs] at h; cases h
      | some r =>
        rw [hs] at h
        match r, h with
        | (true, v'), h =>
          cases h
          exact hstep _ _ _ _ hs
        | (false, v'), h =>
          exact (hstep _ _ _ _ hs).trans (ih _ _ _ h)

lemma dfsNode_mono (g : List (String × List String)) :
    ∀ (fuel : Nat) (visited stack : Finset String) (node : String) (b : Bool)
      (V' : Finset String),
      dfsNode g fuel visited stack node = some (b, V') → visited ⊆ V' := by
  intro fuel
  induction fuel with
  | zero => intro v s n b V' h; cases h
  | succ n ih =>
    intro visited stack node b V' h
    simp only [dfsNode] at h
    exact (Finset.subset_insert node visited).trans
      (dfsList_mono g _ _ (fun v m b' v' hs => ih v (insert node stack) m b' v' hs)
        _ _ _ _ h)

lemma dfsList_ne_none (g : List (String × List String))
    (step : Finset String → String → Option (Bool × Finset String))
    (stack V0 : Finset String)
    (hmono : ∀ v m b v', step v m = some (b, v') → v ⊆ v')
    (hne : ∀ v m, V0 ⊆ v → m ∈ univFS g → m ∉ v → step v m ≠ none) :
    ∀ (l : List String) (visited : Finset String), V0 ⊆ visited →
      (∀ m ∈ l, m ∈ univFS g) → dfsList step stack visited l ≠ none := by
  intro l
  induction l with
  | nil => intro visited h0 hl h; cases h
  | cons m rest ih =>
    intro visited h0 hl h
    simp only [dfsList] at h
    by_cases h1 : m ∈ visited
    · rw [if_pos h1] at h
      by_cases h2 : m ∈ stack
      · rw [if_pos h2] at h; cases h
      · rw [if_neg h2] at h
        exact ih visited h0 (fun x hx => hl x (List.mem_cons_of_mem m hx)) h
    · rw [if_neg h1] at h
      cases hs : step visited m with
      | none => exact hne visited m h0 (hl m (List.mem_cons_self m rest)) h1 hs
      | some r =>
        rw [hs] at h
        match r, h with
        | (true, v'), h => cases h
        | (false, v'), h =>
          exact ih v' (h0.trans (hmono _ _ _ _ hs))
            (fun x hx => hl x (List.mem_cons_of_mem m hx)) h

lemma dfsNode_ne_none (g : List (String × List String)) :
    ∀ (fuel : Nat) (visited stack : Finset String) (node : String),
      node ∈ univFS g → node ∉ visited →
      (univFS g \ visited).card ≤ fuel →
      dfsNode g fuel visited stack node ≠ none := by
  intro fuel
  induction fuel with
  | zero =>
    intro visited stack node hu hv hc
    exfalso
    have : node ∈ univFS g \ visited := Finset.mem_sdiff.mpr ⟨hu, hv⟩
    have := Finset.card_pos.mpr ⟨node, this⟩
    omega
  | succ n ih =>
    intro visited stack node hu hv hc
    simp only [dfsNode]
    have hcard : (univFS g \ insert node visited).card ≤ n := by
      have h1 : univFS g \ insert node visited
          = (univFS g \ visited).erase node := by
        ext x
        simp only [Finset.mem_sdiff, Finset.mem_insert, Finset.mem_erase]
        tauto
      have h2 : node ∈ univFS g \ visited := Finset.mem_sdiff.mpr ⟨hu, hv⟩
      rw [h1, Finset.card_erase_of_mem h2]
      have := Finset.card_pos.mpr ⟨node, h2⟩
      omega
    refine dfsList_ne_none g _ _ (insert node visited)
      (fun v m b' v' hs => dfsNode_mono g n v (insert node stack) m b' v' hs)
      ?_ (nbrs g node) (insert node visited) subset_rfl
      (fun m hm => nbrs_mem_univ g node m hm)
    intro v m hsub hmu hmv
    refine ih v (insert node stack) m hmu hmv ?_
    have : univFS g \ v ⊆ univFS g \ insert node visited :=
      Finset.sdiff_subset_sdiff subset_rfl hsub
    have := Finset.card_le_card this
    omega

lemma hasCycleLoop_ne_none (g : List (String × List String)) :
    ∀ (ks : List String) (fuel : Nat) (visited : Finset String),
      (∀ k ∈ ks, k ∈ univFS g) → (univFS g).card ≤ fuel →
      hasCycleLoop g fuel visited ks ≠ none := by
  intro ks
  induction ks with
  | nil => intro fuel visited hk hc h; cases h
  | cons k rest ih =>
    intro fuel visited hk hc h
    simp only [hasCycleLoop] at h
    split_ifs at h with h1
    · exact ih fuel visited (fun x hx => hk x (List.mem_cons_of_mem k hx)) hc h
    · cases hs : dfsNode g fuel visited ∅ k with
      | none =>
        refine dfsNode_ne_none g fuel visited ∅ k
          (hk k (List.mem_cons_self k rest)) h1 ?_ hs
        calc (univFS g \ visited).card ≤ (univFS g).card :=
              Finset.card_le_card (Finset.sdiff_subset)
          _ ≤ fuel := hc
      | some r =>
        rw [hs] at h
        match r, h with
        | (true, v'), h => cases h
        | (false, v'), h =>
          exact ih fuel v' (fun x hx => hk x (List.mem_cons_of_mem k hx)) hc h

lemma hasCycleO_eq (g : List (String × List String)) :
    hasCycleO g = some (hasCycleB g) := by
  cases h : hasCycleO g with
  | none =>
    exfalso
    refine hasCycleLoop_ne_none g (keysOf g) (allNodes g).length ∅ ?_ ?_ h
    · intro k hk
      unfold univFS
      rw [List.mem_toFinset]
      exact keysOf_subset_allNodes g k hk
    · exact List.toFinset_card_le (allNodes g)
  | some b => simp [hasCycleB, h]

lemma dfsList_true (g : List (String × List String))
    (step : Finset String → String → Option (Bool × Finset String))
    (stack : Finset String) (n : String)
    (hstep : ∀ v k v', gEdge g n k → step v k = some (true, v') →
      hasDirectedCycle g)
    (hstack : ∀ s ∈ stack, Relation.ReflTransGen (gEdge g) s n) :
    ∀ (l : List String) (visited V' : Finset String),
      (∀ m ∈ l, gEdge g n m) →
      dfsList step stack visited l = some (true, V') → hasDirectedCycle g := by
  intro l
  induction l with
  | nil =>
    intro visited V' he h
    simp only [dfsList] at h
    cases h
  | cons m rest ih =>
    intro visited V' he h
    simp only [dfsList] at h
    by_cases h1 : m ∈ visited
    · rw [if_pos h1] at h
      by_cases h2 : m ∈ stack
      · refine ⟨m, ?_⟩
        exact Relation.TransGen.tail' (hstack m h2)
          (he m (List.mem_cons_self m rest))
      · rw [if_neg h2] at h
        exact ih _ _ (fun x hx => he x (List.mem_cons_of_mem m hx)) h
    · rw [if_neg h1] at h
      cases hs : step visited m with
      | none => rw [hs] at h; cases h
      | some r =>
        rw [hs] at h
        match r, h with
        | (true, v'), h =>
          exact hstep _ _ _ (he m (List.mem_cons_self m rest)) hs
        | (false, v'), h =>
          exact ih _ _ (fun x hx => he x (List.mem_cons_of_mem m hx)) h

lemma dfsNode_true (g : List (String × List String)) :
    ∀ (fuel : Nat) (visited stack : Finset String) (node : String)
      (V' : Finset String),
      (∀ s ∈ stack, Relation.ReflTransGen (gEdge g) s node) →
      dfsNode g fuel visited stack node = some (true, V') →
      hasDirectedCycle g := by
  intro fuel
  induction fuel with
  | zero => intro v s node V' hs h; cases h
  | succ n ih =>
    intro visited stack node V' hstack h
    simp only [dfsNode] at h
    refine dfsList_true g _ (insert node stack) node ?_ ?_
      (nbrs g node) (insert node visited) V' (fun m hm => hm) h
    · intro v k v' hek hs
      refine ih v (insert node stack) k v' ?_ hs
      intro s hsm
      rcases Finset.mem_insert.mp hsm with rfl | hsm'
      · exact Relation.ReflTransGen.single hek
      · exact (hstack s hsm').tail hek
    · intro s hsm
      rcases Finset.mem_insert.mp hsm with rfl | hsm'
      · exact Relation.ReflTransGen.refl
      · exact hstack s hsm'

lemma hasCycleLoop_true (g : List (String × List String)) :
    ∀ (ks : List String) (fuel : Nat) (visited : Finset String),
      hasCycleLoop g fuel visited ks = some true → hasDirectedCycle g := by
  intro ks
  induction ks with
  | nil => intro fuel visited h; cases h
  | cons k rest ih =>
    intro fuel visited h
    simp only [hasCycleLoop] at h
    by_cases h1 : k ∈ visited
    · rw [if_pos h1] at h
      exact ih fuel visited h
    · rw [if_neg h1] at h
      cases hs : dfsNode g fuel visited ∅ k with
      | none => rw [hs] at h; cases h
      | some r =>
        rw [hs] at h
        match r, h with
        | (true, v'), h =>
          exact dfsNode_true g fuel visited ∅ k v' (fun s hsm => by cases hsm) hs
        | (false, v'), h => exact ih fuel v' h

lemma closed_stays (g : List (String × List String)) (C : Finset String)
    (hC : ∀ u ∈ C, ∀ m, gEdge g u m → m ∈ C) :
    ∀ u w, u ∈ C → Relation.ReflTransGen (gEdge g) u w → w ∈ C := by
  intro u w hu h
  induction h with
  | refl => exact hu
  | tail hab hbc ih => exact hC _ ih _ hbc

lemma dfsInv_congr (g : List (String × List String))
    {V1 S1 V2 S2 : Finset String} (h : V1 \ S1 = V2 \ S2)
    (hinv : dfsInv g V2 S2) : dfsInv g V1 S1 := by
  unfold dfsInv at hinv ⊢
  rw [h]
  exact hinv

lemma sdiff_insert_insert (V S : Finset String) (node : String)
    (hnV : node ∉ V) : (insert node V) \ (insert node S) = V \ S := by
  ext x
  simp only [Finset.mem_sdiff, Finset.mem_insert]
  constructor
  · rintro ⟨hx1 | hx1, hx2⟩
    · exact absurd (Or.inl hx1) hx2
    · exact ⟨hx1, fun hxs => hx2 (Or.inr hxs)⟩
  · rintro ⟨hx1, hx2⟩
    have hxn : x ≠ node := fun hh => hnV (hh ▸ hx1)
    exact ⟨Or.inr hx1, fun hh => hh.elim (fun h => hxn h) hx2⟩

lemma finishNode (g : List (String × List String)) (V S : Finset String)
    (node : String) (hinv : dfsInv g V (insert node S)) (hn : node ∈ V)
    (hS : node ∉ S)
    (hnb : ∀ m, gEdge g node m → m ∈ V \ insert node S) : dfsInv g V S := by
  have hsub : V \ insert node S ⊆ V \ S :=
    Finset.sdiff_subset_sdiff subset_rfl (Finset.subset_insert node S)
  have hsplit : ∀ u, u ∈ V \ S → u = node ∨ u ∈ V \ insert node S := by
    intro u hu
    rw [Finset.mem_sdiff] at hu
    by_cases hun : u = node
    · exact Or.inl hun
    · exact Or.inr (Finset.mem_sdiff.mpr
        ⟨hu.1, fun hh => (Finset.mem_insert.mp hh).elim hun hu.2⟩)
  constructor
  · intro u hu m hm
    rcases hsplit u hu with rfl | hu'
    · exact hsub (hnb m hm)
    · exact hsub (hinv.1 u hu' m hm)
  · intro u hu htc
    rcases hsplit u hu with rfl | hu'
    · obtain ⟨c, hc, hrtc⟩ := Relation.TransGen.head'_iff.mp htc
      have hcC := hnb c hc
      have := closed_stays g (V \ insert u S) hinv.1 c u hcC hrtc
      rw [Finset.mem_sdiff] at this
      exact this.2 (Finset.mem_insert_self u S)
    · exact hinv.2 u hu' htc

lemma dfsList_false (g : List (String × List String))
    (step : Finset String → String → Option (Bool × Finset String))
    (stack : Finset String)
    (hstep : ∀ v k v', k ∉ v → stack ⊆ v → dfsInv g v stack →
      step v k = some (false, v') →
      v ⊆ v' ∧ dfsInv g v' stack ∧ k ∈ v' \ stack) :
    ∀ (l : List String) (visited V' : Finset String),
      stack ⊆ visited → dfsInv g visited stack →
      dfsList step stack visited l = some (false, V') →
      visited ⊆ V' ∧ dfsInv g V' stack ∧ ∀ m ∈ l, m ∈ V' \ stack := by
  intro l
  induction l with
  | nil =>
    intro visited V' hsub hinv h
    cases h
    exact ⟨subset_rfl, hinv, by simp⟩
  | cons m rest ih =>
    intro visited V' hsub hinv h
    simp only [dfsList] at h
    by_cases h1 : m ∈ visited
    · rw [if_pos h1] at h
      by_cases h2 : m ∈ stack
      · rw [if_pos h2] at h; cases h
      · rw [if_neg h2] at h
        obtain ⟨hs1, hs2, hs3⟩ := ih visited V' hsub hinv h
        refine ⟨hs1, hs2, ?_⟩
        intro x hx
        rcases List.mem_cons.mp hx with rfl | hx'
        · exact Finset.mem_sdiff.mpr ⟨hs1 h1, h2⟩
        · exact hs3 x hx'
    · rw [if_neg h1] at h
      cases hs : step visited m with
      | none => rw [hs] at h; cases h
      | some r =>
        rw [hs] at h
        match r, h with
        | (true, v'), h => cases h
        | (false, v1), h =>
          obtain ⟨hm1, hm2, hm3⟩ := hstep visited m v1 h1 hsub hinv hs
          obtain ⟨hs1, hs2, hs3⟩ := ih v1 V' (hsub.trans hm1) hm2 h
          refine ⟨hm1.trans hs1, hs2, ?_⟩
          intro x hx
          rcases List.mem_cons.mp hx with rfl | hx'
          · rw [Finset.mem_sdiff] at hm3 ⊢
            exact ⟨hs1 hm3.1, hm3.2⟩
          · exact hs3 x hx'

lemma dfsNode_false (g : List (String × List String)) :
    ∀ (fuel : Nat) (V S : Finset String) (node : String) (V' : Finset String),
      node ∉ V → S ⊆ V → dfsInv g V S →
      dfsNode g fuel V S node = some (false, V') →
      V ⊆ V' ∧ dfsInv g V' S ∧ node ∈ V' \ S := by
  intro fuel
  induction fuel with
  | zero => intro V S node V' h1 h2 h3 h; cases h
  | succ n ih =>
    intro V S node V' hnV hSV hinv h
    simp only [dfsNode] at h
    have hinv' : dfsInv g (insert node V) (insert node S) :=
      dfsInv_congr g (sdiff_insert_insert V S node hnV) hinv
    have hsub' : insert node S ⊆ insert node V := Finset.insert_subset_insert _ hSV
    obtain ⟨hs1, hs2, hs3⟩ := dfsList_false g _ (insert node S)
      (fun v k v' hk hsk hik hsk2 => ih v (insert node S) k v' hk hsk hik hsk2)
      (nbrs g node) (insert node V) V' hsub' hinv' h
    have hnodeV' : node ∈ V' := hs1 (Finset.mem_insert_self node V)
    refine ⟨(Finset.subset_insert node V).trans hs1, ?_, ?_⟩
    · exact finishNode g V' S node hs2 hnodeV' (fun hh => hnV (hSV hh))
        (fun m hm => hs3 m hm)
    · exact Finset.mem_sdiff.mpr ⟨hnodeV', fun hh => hnV (hSV hh)⟩

lemma hasCycleLoop_false (g : List (String × List String)) :
    ∀ (ks : List String) (fuel : Nat) (visited : Finset String),
      dfsInv g visited ∅ → hasCycleLoop g fuel visited ks = some false →
      ∃ V', visited ⊆ V' ∧ dfsInv g V' ∅ ∧ ∀ k ∈ ks, k ∈ V' := by
  intro ks
  induction ks with
  | nil =>
    intro fuel visited hinv h
    exact ⟨visited, subset_rfl, hinv, by simp⟩
  | cons k rest ih =>
    intro fuel visited hinv h
    simp only [hasCycleLoop] at h
    by_cases h1 : k ∈ visited
    · rw [if_pos h1] at h
      obtain ⟨V', hs1, hs2, hs3⟩ := ih fuel visited hinv h
      refine ⟨V', hs1, hs2, ?_⟩
      intro x hx
      rcases List.mem_cons.mp hx with rfl | hx'
      · exact hs1 h1
      · exact hs3 x hx'
    · rw [if_neg h1] at h
      cases hs : dfsNode g fuel visited ∅ k with
      | none => rw [hs] at h; cases h
      | some r =>
        rw [hs] at h
        match r, h with
        | (true, v'), h => cases h
        | (false, v1), h =>
          obtain ⟨hm1, hm2, hm3⟩ := dfsNode_false g fuel visited ∅ k v1 h1
            (Finset.empty_subset visited) hinv hs
          obtain ⟨V', hs1, hs2, hs3⟩ := ih fuel v1 hm2 h
          refine ⟨V', hm1.trans hs1, hs2, ?_⟩
          intro x hx
          rcases List.mem_cons.mp hx with rfl | hx'
          · rw [Finset.mem_sdiff] at hm3
            exact hs1 hm3.1
          · exact hs3 x hx'

/-- The engine `has_cycle` answers `True` exactly when the graph has a
directed cycle. -/
lemma hasCycleB_iff (g : List (String × List String)) :
    hasCycleB g = true ↔ hasDirectedCycle g := by
  constructor
  · intro h
    have ho := hasCycleO_eq g
    rw [h] at ho
    exact hasCycleLoop_true g (keysOf g) (allNodes g).length ∅ ho
  · intro hcyc
    by_contra hb
    have hb' : hasCycleB g = false := by
      cases hbb : hasCycleB g
      · rfl
      · exact absurd hbb hb
    have ho := hasCycleO_eq g
    rw [hb'] at ho
    obtain ⟨V', -, hinv, hkeys⟩ := hasCycleLoop_false g (keysOf g)
      (allNodes g).length ∅ ⟨by simp, by simp⟩ ho
    obtain ⟨n, htc⟩ := hcyc
    have hedge : ∃ m, gEdge g n m := by
      obtain ⟨c, hc, -⟩ := Relation.TransGen.head'_iff.mp htc
      exact ⟨c, hc⟩
    obtain ⟨m, hm⟩ := hedge
    have hnk : n ∈ keysOf g := gEdge_mem_keys g n m hm
    have hnV : n ∈ V' \ ∅ := by
      rw [Finset.sdiff_empty]
      exact hkeys n hnk
    exact hinv.2 n hnV htc

lemma circCount_append (a b : List Finding) :
    circCount (a ++ b) = circCount a + circCount b := by
  simp [circCount, List.filter_append]

lemma circCount_zero (l : List Finding)
    (h : ∀ fd ∈ l, fd.category ≠ "Circular Import") : circCount l = 0 := by
  unfold circCount
  rw [List.length_eq_zero, List.filter_eq_nil_iff]
  intro fd hfd
  simpa using h fd hfd

/-- C5: `scan_directory` appends exactly one MEDIUM Circular Import
finding, attributed to the root directory at line 0 and column 0, iff the
local-module import graph has a directed cycle, whatever the number and
size of the cycles and however many acyclic modules the project has. -/
theorem circular_import_iff_cycle (fuel : Nat) (env : ScanEnv)
    (scans : List FileScan) (out : List Finding × List (String × String))
    (hs : scanFiles fuel env.files = some scans)
    (hout : scanDirectory fuel env = some out) :
    circCount out.1 =
      (if hasCycleB (buildGraph (modulesToFiles env) scans) then 1 else 0) ∧
    (hasCycleB (buildGraph (modulesToFiles env) scans) = true ↔
      hasDirectedCycle (buildGraph (modulesToFiles env) scans)) ∧
    (hasCycleB (buildGraph (modulesToFiles env) scans) = true →
      circFinding env.rootPath ∈ out.1) ∧
    circFinding env.rootPath =
      { file := env.rootPath, line := 0, col := 0, severity := "MEDIUM",
        category := "Circular Import",
        message := "Cycle detected in import graph, which may cause runtime issues." } := by
  have heq := scanDirectory_eq fuel env scans hs
  rw [hout] at heq
  have hob := Option.some.inj heq
  have h1 : out.1 = (scans.map (fun s => s.findings)).flatten
      ++ (if hasCycleB (buildGraph (modulesToFiles env) scans) then
            [circFinding env.rootPath]
          else [])
      ++ depsFindings env := by
    rw [hob]
  have hpf : circCount ((scans.map (fun s => s.findings)).flatten) = 0 := by
    apply circCount_zero
    intro fd hfd
    rw [List.mem_flatten] at hfd
    obtain ⟨l, hl, hfdl⟩ := hfd
    rw [List.mem_map] at hl
    obtain ⟨r, hr, rfl⟩ := hl
    have hcat := (scanFiles_findingOK fuel env.files scans hs r hr fd hfdl).2
    intro hcc
    rw [hcc] at hcat
    revert hcat
    decide
  have hdep : circCount (depsFindings env) = 0 := by
    apply circCount_zero
    intro fd hfd
    have hcat := (depsFindings_sev env fd hfd).2
    intro hcc
    rw [hcc] at hcat
    revert hcat
    decide
  refine ⟨?_, hasCycleB_iff _, ?_, rfl⟩
  · rw [h1, circCount_append, circCount_append, hpf, hdep]
    by_cases hc : hasCycleB (buildGraph (modulesToFiles env) scans)
    · rw [if_pos hc, if_pos hc]
      rfl
    · rw [if_neg hc, if_neg hc]
      rfl
  · intro hc
    rw [h1, if_pos hc]
    simp

/-- Witness: on the cyclic two-module project `envW` (`a` imports `b`,
`b` imports `a`, `c` acyclic, plus an unparsable file), exactly one
Circular Import finding appears and the import graph really has a
directed cycle. -/
theorem circular_import_iff_cycle_witness :
    scanFiles 6 envW.files = some wScans5 ∧
    scanDirectory 6 envW = some wOut5 ∧
    circCount wOut5.1 = 1 ∧
    hasDirectedCycle (buildGraph (modulesToFiles envW) wScans5) := by
  have hs : scanFiles 6 envW.files = some wScans5 := by decide
  have hout : scanDirectory 6 envW = some wOut5 := by decide
  have main := circular_import_iff_cycle 6 envW wScans5 wOut5 hs hout
  have hcb : hasCycleB (buildGraph (modulesToFiles envW) wScans5) = true := by
    decide
  refine ⟨hs, hout, ?_, main.2.1.mp hcb⟩
  have hcnt := main.1
  rw [if_pos hcb] at hcnt
  exact hcnt

end SAST
